import Mathlib

/-!
Verification development for the querystudio multi-vendor AI provider layer.

The definitions below are a shallow embedding of the three provider adapters
(`src-tauri/src/ai/providers/claude.rs`, `src-tauri/src/ai/providers/gemini.rs`,
`crates/ai/src/providers/opencode.rs`): the vendor request/response mapping
functions, the SSE frame decoder shared by all streaming paths, and the
per-vendor streaming event interpreters.  Pure text is modelled as `List Char`
at the byte/frame-decoding layer and as `String` inside parsed events; fallible
steps return `Option`/`Except`; the per-stream interpreter loops become step
functions folded by a common runner.  JSON values produced by serde_json are
modelled by the `Json` inductive together with hand-written decoders that
mirror the serde derive attributes on the corresponding Rust structs.
-/

set_option maxRecDepth 10000

/-! ## Domain model

Modelled from the spec: the provider-agnostic domain vocabulary (§3 of the
spec) lives in the providers' parent module, which is not among the provided
source files; the shapes below follow the spec's data model and the uses in
the three adapter files (construction via `AIProviderError::new`, the
`.retryable()` / `.with_type(..)` builder calls, and the `StreamChunk` /
`FinishReason` / `ChatMessage` variants the adapters construct and match on).
-/

inductive ChatRole where
  | System | User | Assistant | Tool
  deriving DecidableEq, Repr

structure ToolCall where
  id : String
  name : String
  arguments : String
  deriving DecidableEq, Repr

structure ChatMessage where
  role : ChatRole
  content : Option String
  tool_calls : Option (List ToolCall)
  tool_call_id : Option String
  deriving DecidableEq, Repr

inductive FinishReason where
  | Stop | Length | ToolCalls | ContentFilter | Unknown
  deriving DecidableEq, Repr

structure ChatResponse where
  content : Option String
  tool_calls : List ToolCall
  finish_reason : FinishReason
  deriving DecidableEq, Repr

inductive StreamChunk where
  | Content (text : String)
  | ToolCallStart (id : String) (name : String)
  | ToolCallDelta (id : String) (arguments : String)
  | Done (finish_reason : FinishReason)
  | Error (message : String)
  deriving DecidableEq, Repr

structure AIProviderError where
  message : String
  error_type : Option String
  retryable : Bool
  deriving DecidableEq, Repr

/-- Modelled from the spec: `AIProviderError::new` constructs a
non-retryable error with no vendor type tag (the adapters mark transport
failures retryable by an explicit builder call, so the constructor default
is non-retryable). -/
def AIProviderError.new (msg : String) : AIProviderError :=
  { message := msg, error_type := none, retryable := false }

/-- Modelled from the spec: the `.retryable()` builder sets the retryable
flag. -/
def AIProviderError.mark_retryable (e : AIProviderError) : AIProviderError :=
  { e with retryable := true }

/-- Modelled from the spec: the `.with_type(t)` builder records the vendor
error-type tag. -/
def AIProviderError.with_type (e : AIProviderError) (t : String) : AIProviderError :=
  { e with error_type := some t }

/-! ## JSON values

Model of `serde_json::Value` as used by the adapters: `get` looks a key up in
an object, `as_str` projects a string.  Objects keep their fields as an
association list; `get` returns the first binding.
-/

inductive Json where
  | null
  | bool (b : Bool)
  | num (n : Int)
  | str (s : String)
  | arr (xs : List Json)
  | obj (fields : List (String × Json))

def Json.get (j : Json) (key : String) : Option Json :=
  match j with
  | .obj fields => go fields
  | _ => none
where go : List (String × Json) → Option Json
  | [] => none
  | (k, v) :: rest => if k = key then some v else go rest

def Json.as_str (j : Json) : Option String :=
  match j with
  | .str s => some s
  | _ => none

def jsonEscapeChar (c : Char) : List Char :=
  if c = '"' then ['\\', '"']
  else if c = '\\' then ['\\', '\\']
  else if c = '\n' then ['\\', 'n']
  else if c = '\r' then ['\\', 'r']
  else if c = '\t' then ['\\', 't']
  else [c]

def jsonEscape (s : String) : String :=
  String.mk (s.data.flatMap jsonEscapeChar)

def commaJoin : List String → String
  | [] => ""
  | [x] => x
  | x :: y :: rest => x ++ "," ++ commaJoin (y :: rest)

mutual

/-- Compact serialization of a `Json` value, modelling
`serde_json::Value::to_string()` as used for tool-call argument payloads
(the adapters treat the resulting text as opaque). -/
def Json.render : Json → String
  | .null => "null"
  | .bool b => if b then "true" else "false"
  | .num n => toString n
  | .str s => "\"" ++ jsonEscape s ++ "\""
  | .arr xs => "[" ++ commaJoin (renderList xs) ++ "]"
  | .obj fields =>
      String.mk [Char.ofNat 123] ++ commaJoin (renderFields fields) ++ String.mk [Char.ofNat 125]

def renderList : List Json → List String
  | [] => []
  | x :: rest => Json.render x :: renderList rest

def renderFields : List (String × Json) → List String
  | [] => []
  | (k, v) :: rest => ("\"" ++ jsonEscape k ++ "\":" ++ Json.render v) :: renderFields rest

end

/-- Rendering of the empty JSON object, used by the OpenCode interpreter's
`args != "\x7b\x7d"` guard. -/
def emptyObjStr : String := String.mk [Char.ofNat 123, Char.ofNat 125]

/-! ## Generic streaming runner

Each adapter's background task iterates over decoded SSE frames; each frame
yields a parse outcome (`none` when `serde_json::from_str` fails, in which
case the code skips the frame).  A parsed event is handed to the vendor step
function, which returns the new interpreter state, the chunks sent over the
channel, and whether the task returns (`true` models an early `return`).
-/

def runStream {σ ε : Type} (step : σ → ε → σ × List StreamChunk × Bool) :
    σ → List (Option ε) → List StreamChunk
  | _, [] => []
  | st, none :: rest => runStream step st rest
  | st, some e :: rest =>
      let r := step st e
      r.2.1 ++ (if r.2.2 then [] else runStream step r.1 rest)

/-! ## Anthropic-style adapter (`claude.rs`) -/

inductive AnthropicContentBlock where
  | Text (text : String)
  | ToolUse (id : String) (name : String) (input : Json)
  | ToolResult (tool_use_id : String) (content : String)

inductive AnthropicContent where
  | Text (s : String)
  | Blocks (blocks : List AnthropicContentBlock)

structure AnthropicMessage where
  role : String
  content : AnthropicContent

structure AnthropicTool where
  name : String
  description : String
  input_schema : Json

structure AnthropicRequest where
  model : String
  max_tokens : Nat
  system : Option String
  messages : List AnthropicMessage
  tools : List AnthropicTool
  stream : Option Bool

inductive AnthropicResponseContent where
  | Text (text : String)
  | ToolUse (id : String) (name : String) (input : Json)

structure AnthropicError where
  message : String
  error_type : Option String
  deriving DecidableEq, Repr

structure AnthropicResponse where
  content : List AnthropicResponseContent
  stop_reason : Option String
  error : Option AnthropicError

/-- Embedding of `claude.rs::convert_messages`: hoist the system text, turn
user/assistant/tool messages into Anthropic messages, dropping empty
assistant block lists and tool messages lacking an id or content. -/
def claudeConvertMessages (messages : List ChatMessage) :
    Option String × List AnthropicMessage :=
  go messages none []
where
  go : List ChatMessage → Option String → List AnthropicMessage →
      Option String × List AnthropicMessage
  | [], sys, acc => (sys, acc)
  | msg :: rest, sys, acc =>
    match msg.role with
    | .System => go rest msg.content acc
    | .User =>
        match msg.content with
        | some content =>
            go rest sys (acc ++ [{ role := "user", content := .Text content }])
        | none => go rest sys acc
    | .Assistant =>
        let textBlocks : List AnthropicContentBlock :=
          match msg.content with
          | some content => if content ≠ "" then [.Text content] else []
          | none => []
        let toolBlocks : List AnthropicContentBlock :=
          match msg.tool_calls with
          | some tcs => tcs.map fun tc =>
              -- serde_json::from_str(&tc.arguments) modelled as an opaque decode:
              -- the adapters treat arguments as already-parsed JSON text; the
              -- block stores the parsed value.  Only the structure matters here,
              -- so a parse failure (falling back to an empty object) is folded
              -- into the Json field via jsonOfArguments below.
              .ToolUse tc.id tc.name (jsonOfArguments tc.arguments)
          | none => []
        let blocks := textBlocks ++ toolBlocks
        if blocks.isEmpty then
          go rest sys acc
        else
          go rest sys (acc ++ [{ role := "assistant", content := .Blocks blocks }])
    | .Tool =>
        match msg.tool_call_id, msg.content with
        | some tool_call_id, some content =>
            go rest sys
              (acc ++ [{ role := "user",
                         content := .Blocks [.ToolResult tool_call_id content] }])
        | _, _ => go rest sys acc
  /- Stand-in for `serde_json::from_str(&tc.arguments).unwrap_or(json!(..))`:
  the serde text parser is not modelled; no claim depends on the parsed value
  of an argument string, only on the message/block structure around it. -/
  jsonOfArguments : String → Json
  | _ => Json.obj []

/-- Embedding of `claude.rs::parse_finish_reason`. -/
def claudeParseFinishReason (reason : Option String) : FinishReason :=
  match reason with
  | some "end_turn" => .Stop
  | some "stop_sequence" => .Stop
  | some "tool_use" => .ToolCalls
  | some "max_tokens" => .Length
  | _ => .Unknown

/-- Embedding of the request construction in `ClaudeProvider::chat` /
`chat_stream` (lines 251-261 and 361-371). -/
def claudeBuildRequest (model : String) (messages : List ChatMessage)
    (tools : List AnthropicTool) (stream : Option Bool) : AnthropicRequest :=
  let conv := claudeConvertMessages messages
  { model := model, max_tokens := 8192, system := conv.1,
    messages := conv.2, tools := tools, stream := stream }

/-- Embedding of the response mapping in `ClaudeProvider::chat`
(lines 311-345): vendor error check, then fold the content blocks into
joined text plus the tool-call list, finish reason from `stop_reason`. -/
def claudeChatOfResponse (resp : AnthropicResponse) :
    Except AIProviderError ChatResponse :=
  match resp.error with
  | some error =>
      let err := AIProviderError.new error.message
      let err := match error.error_type with
        | some t => err.with_type t
        | none => err
      .error err
  | none =>
      let acc := resp.content.foldl
        (fun (acc : String × List ToolCall) block =>
          match block with
          | .Text text => (acc.1 ++ text, acc.2)
          | .ToolUse id name input =>
              (acc.1, acc.2 ++ [{ id := id, name := name, arguments := input.render }]))
        ("", [])
      .ok { content := if acc.1 = "" then none else some acc.1,
            tool_calls := acc.2,
            finish_reason := claudeParseFinishReason resp.stop_reason }

/-! Decoding of the Anthropic sync response body, mirroring the serde derive
on `AnthropicResponse` (`content` required, `stop_reason` an optional string,
`error` defaulted; `AnthropicResponseContent` is internally tagged on
`"type"` with snake_case variant names and no fallback arm, so an unknown
tag fails the whole parse). -/

def decodeAnthropicRespContent (j : Json) : Option AnthropicResponseContent :=
  match (j.get "type").bind Json.as_str with
  | some "text" =>
      match (j.get "text").bind Json.as_str with
      | some text => some (.Text text)
      | none => none
  | some "tool_use" =>
      match (j.get "id").bind Json.as_str, (j.get "name").bind Json.as_str,
            j.get "input" with
      | some id, some name, some input => some (.ToolUse id name input)
      | _, _, _ => none
  | _ => none

def decodeStringField (j : Json) (key : String) : Option (Option String) :=
  match j.get key with
  | none => some none
  | some v => match v.as_str with
    | some s => some (some s)
    | none => none

def decodeAnthropicError (j : Json) : Option AnthropicError :=
  match (j.get "message").bind Json.as_str with
  | some message =>
      match decodeStringField j "type" with
      | some t => some { message := message, error_type := t }
      | none => none
  | none => none

def decodeAnthropicResponse (j : Json) : Option AnthropicResponse :=
  match j.get "content" with
  | some (.arr xs) =>
      match xs.mapM decodeAnthropicRespContent with
      | some content =>
          match decodeStringField j "stop_reason" with
          | some stop_reason =>
              match j.get "error" with
              | none => some { content := content, stop_reason := stop_reason, error := none }
              | some e => match decodeAnthropicError e with
                | some err => some { content := content, stop_reason := stop_reason,
                                     error := some err }
                | none => none
          | none => none
      | none => none
  | _ => none

/-! Anthropic streaming event interpreter (`chat_stream` task, lines
419-574).  The per-stream state is the active tool id; `message_stop` and a
present `error` payload terminate the task (`return`). -/

inductive AnthropicStreamContentBlock where
  | Text (text : String)
  | ToolUse (id : String) (name : String)
  deriving DecidableEq, Repr

inductive AnthropicStreamDelta where
  | TextDelta (text : String)
  | InputJsonDelta (fragmentJson : String)   -- source field: partial JSON delta text
  | Unknown
  deriving DecidableEq, Repr

structure AnthropicStreamMessage where
  stop_reason : Option String
  deriving DecidableEq, Repr

structure AnthropicStreamEvent where
  event_type : String
  content_block : Option AnthropicStreamContentBlock
  delta : Option AnthropicStreamDelta
  message : Option AnthropicStreamMessage
  error : Option AnthropicError

/-- One Anthropic stream event: returns (new active tool id, chunks sent,
task returned).  Mirrors the `match event.event_type.as_str()` block. -/
def claudeStep (current_tool_id : Option String) (e : AnthropicStreamEvent) :
    Option String × List StreamChunk × Bool :=
  match e.event_type with
  | "content_block_start" =>
      match e.content_block with
      | some (.Text _) => (current_tool_id, [], false)
      | some (.ToolUse id name) => (some id, [.ToolCallStart id name], false)
      | none => (current_tool_id, [], false)
  | "content_block_delta" =>
      match e.delta with
      | some (.TextDelta text) =>
          if text ≠ "" then (current_tool_id, [.Content text], false)
          else (current_tool_id, [], false)
      | some (.InputJsonDelta fragment) =>
          match current_tool_id with
          | some id => (current_tool_id, [.ToolCallDelta id fragment], false)
          | none => (current_tool_id, [], false)
      | some .Unknown => (current_tool_id, [], false)
      | none => (current_tool_id, [], false)
  | "content_block_stop" => (none, [], false)
  | "message_delta" =>
      match e.message with
      | some message =>
          match message.stop_reason with
          | some reason =>
              (current_tool_id,
               [.Done (claudeParseFinishReason (some reason))], false)
          | none => (current_tool_id, [], false)
      | none => (current_tool_id, [], false)
  | "message_stop" => (current_tool_id, [.Done .Stop], true)
  | "error" =>
      match e.error with
      | some error => (current_tool_id, [.Error error.message], true)
      | none => (current_tool_id, [], false)
  | _ => (current_tool_id, [], false)

/-- Whole-stream interpretation for the Anthropic adapter over the parse
outcomes of the decoded `data:` payloads. -/
def claudeRun (frames : List (Option AnthropicStreamEvent)) : List StreamChunk :=
  runStream claudeStep none frames

/-! ## Generative-style adapter (`gemini.rs`) -/

structure GeminiFunctionCall where
  name : String
  args : Json

structure GeminiFunctionResponse where
  name : String
  response : Json

structure GeminiPart where
  text : Option String
  function_call : Option GeminiFunctionCall
  function_response : Option GeminiFunctionResponse

structure GeminiContent where
  role : Option String
  parts : List GeminiPart

structure GeminiCandidate where
  content : Option GeminiContent
  finish_reason : Option String

structure GeminiError where
  message : String
  status : Option String
  deriving DecidableEq, Repr

structure GeminiResponse where
  candidates : Option (List GeminiCandidate)
  error : Option GeminiError

/-- Embedding of `gemini.rs::convert_messages`: system text becomes the
system instruction content, user/assistant/tool messages become role-tagged
part lists (assistant role spelled "model", tool results as a user
function-response part named by `tool_call_id`). -/
def geminiConvertMessages (messages : List ChatMessage) :
    Option GeminiContent × List GeminiContent :=
  go messages none []
where
  go : List ChatMessage → Option GeminiContent → List GeminiContent →
      Option GeminiContent × List GeminiContent
  | [], sys, acc => (sys, acc)
  | msg :: rest, sys, acc =>
    match msg.role with
    | .System =>
        match msg.content with
        | some content =>
            go rest
              (some { role := none,
                      parts := [{ text := some content, function_call := none,
                                  function_response := none }] }) acc
        | none => go rest sys acc
    | .User =>
        match msg.content with
        | some content =>
            go rest sys
              (acc ++ [{ role := some "user",
                         parts := [{ text := some content, function_call := none,
                                     function_response := none }] }])
        | none => go rest sys acc
    | .Assistant =>
        let textParts : List GeminiPart :=
          match msg.content with
          | some content =>
              if content ≠ "" then
                [{ text := some content, function_call := none, function_response := none }]
              else []
          | none => []
        let callParts : List GeminiPart :=
          match msg.tool_calls with
          | some tcs => tcs.map fun tc =>
              { text := none,
                function_call := some { name := tc.name, args := geminiArgsOf tc.arguments },
                function_response := none }
          | none => []
        let parts := textParts ++ callParts
        if parts.isEmpty then
          go rest sys acc
        else
          go rest sys (acc ++ [{ role := some "model", parts := parts }])
    | .Tool =>
        match msg.content with
        | some content =>
            let name := msg.tool_call_id.getD ""
            go rest sys
              (acc ++ [{ role := some "user",
                         parts := [{ text := none, function_call := none,
                                     function_response :=
                                       some { name := name,
                                              response := geminiArgsOf content } }] }])
        | none => go rest sys acc
  /- Stand-in for `serde_json::from_str` on an opaque argument/content string
  (falling back to an empty object / wrapped text): the serde text parser is
  not modelled and no claim depends on the parsed value. -/
  geminiArgsOf : String → Json
  | _ => Json.obj []

/-- Embedding of `gemini.rs::parse_finish_reason`. -/
def geminiParseFinishReason (reason : Option String) : FinishReason :=
  match reason with
  | some "STOP" => .Stop
  | some "MAX_TOKENS" => .Length
  | some "SAFETY" => .ContentFilter
  | some "RECITATION" => .ContentFilter
  | some "TOOL_CODE" => .ToolCalls
  | some "MALFORMED_FUNCTION_CALL" => .ToolCalls
  | _ => .Unknown

/-- The parts fold of `GeminiProvider::chat` (lines 310-328): joined text,
synthesized-id tool calls, and the running tool-call index. -/
def geminiExtractParts (parts : List GeminiPart) : String × List ToolCall × Nat :=
  parts.foldl
    (fun (acc : String × List ToolCall × Nat) part =>
      let acc := match part.text with
        | some text => (acc.1 ++ text, acc.2.1, acc.2.2)
        | none => acc
      match part.function_call with
      | some fc =>
          (acc.1,
           acc.2.1 ++ [{ id := "call_" ++ toString acc.2.2,
                         name := fc.name, arguments := fc.args.render }],
           acc.2.2 + 1)
      | none => acc)
    ("", [], 0)

/-- Embedding of the response mapping in `GeminiProvider::chat` (lines
296-344): vendor error check, first candidate (error when absent), fold the
parts into text plus synthesized-id tool calls, then override the finish
reason to ToolCalls when any tool call was produced. -/
def geminiChatOfResponse (resp : GeminiResponse) :
    Except AIProviderError ChatResponse :=
  match resp.error with
  | some error =>
      let err := AIProviderError.new error.message
      let err := match error.status with
        | some s => err.with_type s
        | none => err
      .error err
  | none =>
      match (resp.candidates.getD []).head? with
      | none => .error (AIProviderError.new "No response candidates")
      | some candidate =>
          let acc := geminiExtractParts (match candidate.content with
            | some c => c.parts
            | none => [])
          let finish_reason :=
            if acc.2.1.isEmpty then geminiParseFinishReason candidate.finish_reason
            else FinishReason.ToolCalls
          .ok { content := if acc.1 = "" then none else some acc.1,
                tool_calls := acc.2.1,
                finish_reason := finish_reason }

/-! Gemini streaming event interpreter (`chat_stream` task, lines 422-535).
Per-stream state: the synthesized tool-call counter and the accumulated
pending tool calls (id, name, rendered args); frames are full `GeminiResponse`
snapshots.  Only a present `error` payload (or a transport error, outside
this model) terminates the task early. -/

structure GeminiStreamState where
  tool_call_index : Nat
  pending_tool_calls : List (String × String × String)

/-- One Gemini part inside a streamed candidate: text parts emit Content
when non-empty; function-call parts emit ToolCallStart immediately followed
by ToolCallDelta with the full rendered arguments, pushing a pending
tool call. -/
def geminiPartStep (st : GeminiStreamState) (part : GeminiPart) :
    GeminiStreamState × List StreamChunk :=
  let textChunks : List StreamChunk := match part.text with
    | some text => if text ≠ "" then [.Content text] else []
    | none => []
  match part.function_call with
  | some fc =>
      let id := "call_" ++ toString st.tool_call_index
      let args := fc.args.render
      ({ tool_call_index := st.tool_call_index + 1,
         pending_tool_calls := st.pending_tool_calls ++ [(id, fc.name, args)] },
       textChunks ++ [.ToolCallStart id fc.name, .ToolCallDelta id args])
  | none => (st, textChunks)

/-- One streamed Gemini candidate: its parts in order, then a Done chunk if
the candidate carries a finish reason (overridden to ToolCalls when any
pending tool call exists). -/
def geminiCandStep (st : GeminiStreamState) (candidate : GeminiCandidate) :
    GeminiStreamState × List StreamChunk :=
  let parts := match candidate.content with
    | some c => c.parts
    | none => []
  let r := parts.foldl
    (fun (r : GeminiStreamState × List StreamChunk) part =>
      let s := geminiPartStep r.1 part
      (s.1, r.2 ++ s.2))
    (st, [])
  match candidate.finish_reason with
  | some reason =>
      let finish_reason :=
        if r.1.pending_tool_calls.isEmpty then geminiParseFinishReason (some reason)
        else FinishReason.ToolCalls
      (r.1, r.2 ++ [.Done finish_reason])
  | none => r

/-- One Gemini stream frame (a parsed `GeminiResponse`): all candidates in
order, then a terminal Error chunk if the frame carries an error payload. -/
def geminiStep (st : GeminiStreamState) (resp : GeminiResponse) :
    GeminiStreamState × List StreamChunk × Bool :=
  let r := match resp.candidates with
    | some candidates =>
        candidates.foldl
          (fun (r : GeminiStreamState × List StreamChunk) candidate =>
            let s := geminiCandStep r.1 candidate
            (s.1, r.2 ++ s.2))
          (st, [])
    | none => (st, [])
  match resp.error with
  | some error => (r.1, r.2 ++ [.Error error.message], true)
  | none => (r.1, r.2, false)

/-- Whole-stream interpretation for the Gemini adapter over the parse
outcomes of the decoded `data:` payloads. -/
def geminiRun (frames : List (Option GeminiResponse)) : List StreamChunk :=
  runStream geminiStep { tool_call_index := 0, pending_tool_calls := [] } frames

/-! ## Local-orchestrator adapter (`opencode.rs`) -/

structure ToolStateResponse where
  status : String
  input : Option Json
  output : Option String
  error : Option String

inductive PartResponse where
  | Text (text : String) (synthetic : Option Bool)
  | Tool (call_id : String) (tool : String) (state : ToolStateResponse)
  | Other

structure PartUpdateProperties where
  part : PartResponse
  delta : Option String

inductive SessionStatusValue where
  | Idle
  | Busy
  | Other
  deriving DecidableEq, Repr

structure SessionStatusProperties where
  session_id : String
  status : SessionStatusValue
  deriving DecidableEq, Repr

structure SessionErrorProperties where
  session_id : Option String
  error : Option Json

inductive EventPayload where
  | MessagePartUpdated (properties : PartUpdateProperties)
  | SessionStatus (properties : SessionStatusProperties)
  | SessionError (properties : SessionErrorProperties)
  | Other

structure AssistantMessageInfo where
  tokens : Option (Nat × Nat)
  error : Option Json

structure MessageResponse where
  info : AssistantMessageInfo
  parts : List PartResponse

/-- The parts fold of `OpenCodeProvider::chat` (lines 303-334): collected
non-synthetic non-empty text pieces and tool calls. -/
def opencodeExtractParts (parts : List PartResponse) : List String × List ToolCall :=
  parts.foldl
    (fun (acc : List String × List ToolCall) part =>
      match part with
      | .Text text synthetic =>
          if synthetic.getD false then acc
          else if text ≠ "" then (acc.1 ++ [text], acc.2) else acc
      | .Tool call_id tool state =>
          let arguments := (state.input.map Json.render).getD ""
          (acc.1, acc.2 ++ [{ id := call_id, name := tool, arguments := arguments }])
      | .Other => acc)
    ([], [])

/-- Embedding of the response mapping in `OpenCodeProvider::chat` (lines
294-352): info error check, fold the parts into non-synthetic non-empty text
pieces (joined with a newline) plus tool calls, finish reason ToolCalls iff
any tool call was produced, else Stop. -/
def opencodeChatOfResponse (resp : MessageResponse) :
    Except AIProviderError ChatResponse :=
  match resp.info.error with
  | some error =>
      let msg := ((error.get "message").bind Json.as_str).getD "Unknown error"
      .error (AIProviderError.new msg)
  | none =>
      let acc := opencodeExtractParts resp.parts
      let content := if acc.1.isEmpty then none
        else some (String.intercalate "\n" acc.1)
      let finish_reason :=
        if acc.2.isEmpty then FinishReason.Stop else FinishReason.ToolCalls
      .ok { content := content, tool_calls := acc.2, finish_reason := finish_reason }

/-! Decoders mirroring the serde derives on the OpenCode SSE event types:
`EventPayload` and `PartResponse` are internally tagged on `"type"` with an
`Other` fallback arm for unknown tag values (a missing or non-string tag is a
parse failure); `SessionStatusValue` likewise. -/

def decodeBoolField (j : Json) (key : String) : Option (Option Bool) :=
  match j.get key with
  | none => some none
  | some (.bool b) => some (some b)
  | some .null => some none
  | some _ => none

def decodeToolState (j : Json) : Option ToolStateResponse :=
  match (j.get "status").bind Json.as_str with
  | none => none
  | some status =>
      match decodeStringField j "output", decodeStringField j "error" with
      | some output, some error =>
          some { status := status, input := j.get "input",
                 output := output, error := error }
      | _, _ => none

def decodePartResponse (j : Json) : Option PartResponse :=
  match (j.get "type").bind Json.as_str with
  | some "text" =>
      match (j.get "text").bind Json.as_str with
      | some text =>
          match decodeBoolField j "synthetic" with
          | some synthetic => some (.Text text synthetic)
          | none => none
      | none => none
  | some "tool" =>
      match (j.get "callID").bind Json.as_str, (j.get "tool").bind Json.as_str,
            (j.get "state").bind decodeToolState with
      | some call_id, some tool, some state => some (.Tool call_id tool state)
      | _, _, _ => none
  | some _ => some .Other
  | none => none

def decodeSessionStatusValue (j : Json) : Option SessionStatusValue :=
  match (j.get "type").bind Json.as_str with
  | some "idle" => some .Idle
  | some "busy" => some .Busy
  | some _ => some .Other
  | none => none

def decodeEventPayload (j : Json) : Option EventPayload :=
  match (j.get "type").bind Json.as_str with
  | some "message.part.updated" =>
      match j.get "properties" with
      | some props =>
          match (props.get "part").bind decodePartResponse with
          | some part =>
              match decodeStringField props "delta" with
              | some delta => some (.MessagePartUpdated { part := part, delta := delta })
              | none => none
          | none => none
      | none => none
  | some "session.status" =>
      match j.get "properties" with
      | some props =>
          match (props.get "sessionID").bind Json.as_str,
                (props.get "status").bind decodeSessionStatusValue with
          | some session_id, some status =>
              some (.SessionStatus { session_id := session_id, status := status })
          | _, _ => none
      | none => none
  | some "session.error" =>
      match j.get "properties" with
      | some props =>
          match decodeStringField props "sessionID" with
          | some session_id =>
              some (.SessionError { session_id := session_id, error := props.get "error" })
          | none => none
      | none => none
  | some _ => some .Other
  | none => none

/-- Embedding of the envelope unwrapping in `chat_stream` (lines 460-464):
an event carrying a `payload` field is unwrapped, otherwise it is the
payload itself. -/
def opencodeUnwrapPayload (raw : Json) : Json :=
  match raw.get "payload" with
  | some p => p
  | none => raw

/-- Embedding of the session-id extraction in `chat_stream` (lines 466-484):
`properties.sessionID`, else `properties.part.sessionID`, else
`properties.info.sessionID`, each projected as a string. -/
def opencodeExtractSessionId (payload : Json) : Option String :=
  (payload.get "properties").bind fun props =>
    (((props.get "sessionID").bind Json.as_str).orElse fun _ =>
      ((props.get "part").bind fun part => part.get "sessionID").bind Json.as_str).orElse
      fun _ =>
        ((props.get "info").bind fun info => info.get "sessionID").bind Json.as_str

/-- Interpretation of one typed OpenCode event against the active session
(lines 502-582): part-updated text parts emit their non-empty delta when not
synthetic; tool parts in pending/running status emit ToolCallStart plus a
ToolCallDelta when the rendered input is non-empty and not the empty object;
an idle session-status for the active session emits Done and terminates; a
session-error for the active session emits Error and terminates. -/
def opencodeInterpretEvent (target_session_id : String) (event : EventPayload) :
    List StreamChunk × Bool :=
  match event with
  | .MessagePartUpdated properties =>
      match properties.part with
      | .Text _ synthetic =>
          if synthetic.getD false then ([], false)
          else
            match properties.delta with
            | some delta => if delta ≠ "" then ([.Content delta], false) else ([], false)
            | none => ([], false)
      | .Tool call_id tool state =>
          if state.status = "pending" ∨ state.status = "running" then
            let args := (state.input.map Json.render).getD ""
            ([.ToolCallStart call_id tool] ++
              (if args ≠ "" ∧ args ≠ emptyObjStr then [.ToolCallDelta call_id args] else []),
             false)
          else ([], false)
      | .Other => ([], false)
  | .SessionStatus properties =>
      if properties.session_id = target_session_id ∧ properties.status = .Idle then
        ([.Done .Stop], true)
      else ([], false)
  | .SessionError properties =>
      if properties.session_id = some target_session_id then
        let error_msg :=
          ((properties.error.bind fun e => (e.get "message").bind Json.as_str)).getD
            "Unknown error"
        ([.Error error_msg], true)
      else ([], false)
  | .Other => ([], false)

/-- One OpenCode stream frame, starting from the raw JSON parse outcome of
the frame's concatenated data payload (lines 449-583): parse failure skips
the frame; then unwrap the envelope, drop events whose extracted session id
mismatches the active session, and hand decodable payloads to the typed
interpreter (undecodable payload shapes are skipped). -/
def opencodeStep (target_session_id : String) (_st : Unit) (raw : Json) :
    Unit × List StreamChunk × Bool :=
  let payload := opencodeUnwrapPayload raw
  let mismatch : Bool := match opencodeExtractSessionId payload with
    | some sid => sid != target_session_id
    | none => false
  if mismatch then ((), [], false)
  else
    match decodeEventPayload payload with
    | none => ((), [], false)
    | some event =>
        let r := opencodeInterpretEvent target_session_id event
        ((), r.1, r.2)

/-- Whole-stream interpretation for the OpenCode adapter over the raw JSON
parse outcomes of the frames' data payloads. -/
def opencodeRun (target_session_id : String) (frames : List (Option Json)) :
    List StreamChunk :=
  runStream (opencodeStep target_session_id) () frames

/-! ## SSE frame decoder

All three streaming tasks share the same algorithm (claude.rs 425-445,
gemini.rs 431-452, opencode.rs 424-447): each arriving byte chunk is decoded
with `String::from_utf8_lossy` and appended to an accumulation buffer; then
`while let Some(pos) = buffer.find("\n\n")` repeatedly splits off the event
block before the first blank line, leaving the trailing remainder buffered.
Buffer text is modelled as `List Char` (byte indices into well-formed UTF-8
and character indices delimit the same `"\n\n"` occurrences, since the
delimiter is ASCII). -/

/-- Index of the first occurrence of the frame delimiter `"\n\n"`, modelling
`str::find("\n\n")`. -/
def findDD : List Char → Option Nat
  | [] => none
  | c :: rest =>
      if c = '\n' ∧ rest.head? = some '\n' then some 0
      else (findDD rest).map (· + 1)

/-- Fuel-indexed frame-extraction loop: split off the block before the first
`"\n\n"` and recurse on the remainder.  Each iteration consumes at least two
characters, so fuel `buf.length` suffices; the zero-fuel arm is unreachable
at that fuel. -/
def drainFramesGo : Nat → List Char → List (List Char) × List Char
  | 0, buf => ([], buf)
  | fuel + 1, buf =>
      match findDD buf with
      | none => ([], buf)
      | some pos =>
          let frame := buf.take pos
          let r := drainFramesGo fuel (buf.drop (pos + 2))
          (frame :: r.1, r.2)

/-- Embedding of the `while let Some(pos) = buffer.find("\n\n")` loop:
all complete event blocks in the buffer, plus the remaining partial frame. -/
def drainFrames (buf : List Char) : List (List Char) × List Char :=
  drainFramesGo buf.length buf

/-- Feeding a sequence of already-decoded text chunks through the
accumulation buffer: each chunk is appended and the buffer drained, frames
accumulating in order. -/
def processChunks (buf : List Char) : List (List Char) → List (List Char) × List Char
  | [] => ([], buf)
  | chunk :: rest =>
      let r := drainFrames (buf ++ chunk)
      let s := processChunks r.2 rest
      (r.1 ++ s.1, s.2)

/-! ## Lossy UTF-8 decoding of byte chunks

Model of `String::from_utf8_lossy`, applied by the streaming tasks to each
network chunk separately before appending to the buffer.  It follows the
std validation algorithm: the lead byte determines the sequence width
(`0x00-0x7F` → 1, `0xC2-0xDF` → 2, `0xE0-0xEF` → 3, `0xF0-0xF4` → 4, all
other lead bytes invalid), the first continuation byte is range-restricted
for the widths with multiple encodings of the same prefix, and every
maximal invalid subpart — including a truncated sequence at the end of the
chunk — is replaced by one U+FFFD replacement character. -/

def replacementChar : Char := Char.ofNat 0xFFFD

def isCont (b : Nat) : Bool := 0x80 ≤ b ∧ b ≤ 0xBF

def utf8DecodeLossy : List Nat → List Char
  | [] => []
  | b :: rest =>
    if b < 0x80 then Char.ofNat b :: utf8DecodeLossy rest
    else if b < 0xC2 then replacementChar :: utf8DecodeLossy rest
    else if b < 0xE0 then
      match rest with
      | [] => [replacementChar]
      | c1 :: rest2 =>
          if isCont c1 then
            Char.ofNat ((b - 0xC0) * 64 + (c1 - 0x80)) :: utf8DecodeLossy rest2
          else replacementChar :: utf8DecodeLossy (c1 :: rest2)
    else if b < 0xF0 then
      match rest with
      | [] => [replacementChar]
      | c1 :: rest2 =>
          let c1ok : Bool :=
            if b = 0xE0 then 0xA0 ≤ c1 ∧ c1 ≤ 0xBF
            else if b = 0xED then 0x80 ≤ c1 ∧ c1 ≤ 0x9F
            else isCont c1
          if c1ok then
            match rest2 with
            | [] => [replacementChar]
            | c2 :: rest3 =>
                if isCont c2 then
                  Char.ofNat ((b - 0xE0) * 4096 + (c1 - 0x80) * 64 + (c2 - 0x80)) ::
                    utf8DecodeLossy rest3
                else replacementChar :: utf8DecodeLossy (c2 :: rest3)
          else replacementChar :: utf8DecodeLossy (c1 :: rest2)
    else if b < 0xF5 then
      match rest with
      | [] => [replacementChar]
      | c1 :: rest2 =>
          let c1ok : Bool :=
            if b = 0xF0 then 0x90 ≤ c1 ∧ c1 ≤ 0xBF
            else if b = 0xF4 then 0x80 ≤ c1 ∧ c1 ≤ 0x8F
            else isCont c1
          if c1ok then
            match rest2 with
            | [] => [replacementChar]
            | c2 :: rest3 =>
                if isCont c2 then
                  match rest3 with
                  | [] => [replacementChar]
                  | c3 :: rest4 =>
                      if isCont c3 then
                        Char.ofNat ((b - 0xF0) * 262144 + (c1 - 0x80) * 4096 +
                            (c2 - 0x80) * 64 + (c3 - 0x80)) :: utf8DecodeLossy rest4
                      else replacementChar :: utf8DecodeLossy (c3 :: rest4)
                else replacementChar :: utf8DecodeLossy (c2 :: rest3)
          else replacementChar :: utf8DecodeLossy (c1 :: rest2)
    else replacementChar :: utf8DecodeLossy rest

/-- Full byte-level delivery path: lossily decode each network chunk, then
feed the text through the accumulation buffer. -/
def processByteChunks (chunks : List (List Nat)) : List (List Char) × List Char :=
  processChunks [] (chunks.map utf8DecodeLossy)

/-! ## Per-line data extraction

Claude and Gemini strip only the spaced marker `"data: "` from each line of
an event block and parse each such payload separately (claude.rs 441-445,
gemini.rs 448-452); OpenCode also accepts the unspaced `"data:"` form and
concatenates all data payloads of the block (opencode.rs 436-443).  Lines
are produced by `str::lines()`: split on `'\n'`, strip one trailing `'\r'`
per line, and drop a final empty piece. -/

def splitNL : List Char → List (List Char)
  | [] => [[]]
  | '\n' :: rest => [] :: splitNL rest
  | c :: rest =>
      match splitNL rest with
      | l :: ls => (c :: l) :: ls
      | [] => [[c]]

def stripCR (l : List Char) : List Char :=
  match l.getLast? with
  | some '\r' => l.dropLast
  | _ => l

/-- Model of `str::lines()` over an event block. -/
def rustLines (s : List Char) : List (List Char) :=
  let ps := splitNL s
  let ps := if ps.getLast? = some [] then ps.dropLast else ps
  ps.map stripCR

/-- Model of `line.strip_prefix("data: ")` as used by the Claude and Gemini
decoders: only the spaced marker yields a payload. -/
def claudeLineData : List Char → Option (List Char)
  | 'd' :: 'a' :: 't' :: 'a' :: ':' :: ' ' :: rest => some rest
  | _ => none

/-- Data-payload candidates of one Claude/Gemini event block: one JSON
document per `"data: "` line. -/
def claudeFrameDataLines (block : List Char) : List (List Char) :=
  (rustLines block).filterMap claudeLineData

/-- Model of the OpenCode per-line data extraction: `strip_prefix("data: ")`
first, then `strip_prefix("data:")`. -/
def opencodeLineData : List Char → Option (List Char)
  | 'd' :: 'a' :: 't' :: 'a' :: ':' :: ' ' :: rest => some rest
  | 'd' :: 'a' :: 't' :: 'a' :: ':' :: rest => some rest
  | _ => none

/-- Concatenated data payload of one OpenCode event block. -/
def opencodeFrameData (block : List Char) : List Char :=
  ((rustLines block).filterMap opencodeLineData).flatten

/-! ## HTTP error construction paths (claim C4)

The non-2xx handling differs per call site.  Sync chat in Claude and Gemini
(claude.rs 280-306, gemini.rs 265-291) marks the error retryable for status
429 or ≥500 — but only inside the branch where the body parsed as JSON and
carried an `error` object.  The streaming constructors (claude.rs 391-407,
gemini.rs 398-414) and the OpenCode paths (opencode.rs 284-289, 378-412,
616-621) never mark an HTTP status error retryable.  The vendor error body
is modelled by its parse outcome. -/

/-- Non-2xx handling in `ClaudeProvider::chat` (and identically in
`GeminiProvider::chat` with the `status` tag in place of `type`). -/
def claudeChatHttpError (status : Nat) (errorBody : Option AnthropicError) :
    AIProviderError :=
  match errorBody with
  | some error =>
      let err := AIProviderError.new error.message
      let err := match error.error_type with
        | some t => err.with_type t
        | none => err
      if status = 429 ∨ 500 ≤ status then err.mark_retryable else err
  | none => AIProviderError.new "API error"

/-- Non-2xx handling in `ClaudeProvider::chat_stream` (and identically in
`GeminiProvider::chat_stream`): the vendor message is kept but the error is
never marked retryable. -/
def claudeStreamHttpError (_status : Nat) (errorBody : Option AnthropicError) :
    AIProviderError :=
  match errorBody with
  | some error => AIProviderError.new error.message
  | none => AIProviderError.new "API error"

/-- Non-2xx handling in `OpenCodeProvider::chat` (lines 284-289): a plain
formatted message, never retryable. -/
def opencodeChatHttpError (status : Nat) (body : String) : AIProviderError :=
  AIProviderError.new ("OpenCode API error (" ++ toString status ++ "): " ++ body)

/-- Transport-failure handling of the top-level request send in
`ClaudeProvider::chat`/`chat_stream`, `GeminiProvider::chat`/`chat_stream`
and the message post of `OpenCodeProvider::chat`: the error is marked
retryable. -/
def claudeTransportError (msg : String) : AIProviderError :=
  (AIProviderError.new ("Request failed: " ++ msg)).mark_retryable

/-! ## Generic lemmas about the streaming runner -/

/-- Chunks of a run all satisfy a predicate once every step's emission
does. -/
lemma runStream_all {σ ε : Type} (step : σ → ε → σ × List StreamChunk × Bool)
    (p : StreamChunk → Bool)
    (h : ∀ st e, ((step st e).2.1).all p = true) :
    ∀ (frames : List (Option ε)) (st : σ),
      (runStream step st frames).all p = true := by
  intro frames
  induction frames with
  | nil => intro st; simp [runStream]
  | cons f rest ih =>
      intro st
      cases f with
      | none => simpa [runStream] using ih st
      | some e =>
          simp only [runStream, List.all_append, Bool.and_eq_true]
          refine ⟨h st e, ?_⟩
          by_cases hterm : (step st e).2.2
          · simp [hterm]
          · simp [hterm, ih]

/-- Folds of the emit-and-accumulate shape used by the Gemini interpreter
preserve an all-chunks predicate. -/
lemma foldl_emit_all {σ α : Type} (f : σ → α → σ × List StreamChunk)
    (p : StreamChunk → Bool)
    (h : ∀ st x, ((f st x).2).all p = true) :
    ∀ (xs : List α) (init : σ × List StreamChunk), init.2.all p = true →
      ((xs.foldl (fun r x => ((f r.1 x).1, r.2 ++ (f r.1 x).2)) init).2).all p = true := by
  intro xs
  induction xs with
  | nil => intro init hi; simpa using hi
  | cons x rest ih =>
      intro init hi
      simp only [List.foldl_cons]
      exact ih _ (by simp [List.all_append, hi, h])

/-- A parse-failure frame is skipped: the run over a frame list with a
`none` inserted equals the run without it. -/
lemma runStream_skip_none {σ ε : Type} (step : σ → ε → σ × List StreamChunk × Bool) :
    ∀ (xs ys : List (Option ε)) (st : σ),
      runStream step st (xs ++ none :: ys) = runStream step st (xs ++ ys) := by
  intro xs
  induction xs with
  | nil => intro ys st; simp [runStream]
  | cons f rest ih =>
      intro ys st
      cases f with
      | none => simp [runStream, ih]
      | some e => simp [runStream, ih]

/-! ## Content chunks are never empty (claim C10) -/

/-- A chunk is allowed by claim C10 when it is not an empty Content chunk. -/
def contentNonemptyB : StreamChunk → Bool
  | .Content s => s != ""
  | _ => true

lemma claudeStep_content_nonempty (st : Option String) (e : AnthropicStreamEvent) :
    ((claudeStep st e).2.1).all contentNonemptyB = true := by
  unfold claudeStep
  repeat' split
  all_goals try rfl
  all_goals simp_all [contentNonemptyB]

lemma geminiPartStep_content_nonempty (st : GeminiStreamState) (part : GeminiPart) :
    ((geminiPartStep st part).2).all contentNonemptyB = true := by
  unfold geminiPartStep
  cases hfc : part.function_call <;> cases ht : part.text <;>
    simp only [hfc, ht] <;>
    first
      | rfl
      | (split <;> simp_all [contentNonemptyB])

lemma geminiCandStep_content_nonempty (st : GeminiStreamState) (c : GeminiCandidate) :
    ((geminiCandStep st c).2).all contentNonemptyB = true := by
  unfold geminiCandStep
  have hfold :
      ∀ (parts : List GeminiPart) (init : GeminiStreamState × List StreamChunk),
        init.2.all contentNonemptyB = true →
        ((parts.foldl (fun r part =>
            let s := geminiPartStep r.1 part
            (s.1, r.2 ++ s.2)) init).2).all contentNonemptyB = true := by
    intro parts init hi
    exact foldl_emit_all geminiPartStep contentNonemptyB geminiPartStep_content_nonempty
      parts init hi
  cases hfr : c.finish_reason <;> simp only [hfr]
  · exact hfold _ _ rfl
  · simp only [List.all_append, Bool.and_eq_true]
    exact ⟨hfold _ _ rfl, rfl⟩

lemma geminiStep_content_nonempty (st : GeminiStreamState) (resp : GeminiResponse) :
    ((geminiStep st resp).2.1).all contentNonemptyB = true := by
  unfold geminiStep
  have hfold :
      ∀ (cands : List GeminiCandidate) (init : GeminiStreamState × List StreamChunk),
        init.2.all contentNonemptyB = true →
        ((cands.foldl (fun r c =>
            let s := geminiCandStep r.1 c
            (s.1, r.2 ++ s.2)) init).2).all contentNonemptyB = true := by
    intro cands init hi
    exact foldl_emit_all geminiCandStep contentNonemptyB geminiCandStep_content_nonempty
      cands init hi
  cases hc : resp.candidates <;> cases he : resp.error <;>
    simp only [hc, he, List.all_append, Bool.and_eq_true] <;>
    first
      | rfl
      | exact hfold _ _ rfl
      | exact ⟨hfold _ _ rfl, rfl⟩
      | exact ⟨rfl, rfl⟩

lemma opencodeInterpretEvent_content_nonempty (sid : String) (ev : EventPayload) :
    ((opencodeInterpretEvent sid ev).1).all contentNonemptyB = true := by
  unfold opencodeInterpretEvent
  repeat' split
  all_goals try rfl
  all_goals simp_all [contentNonemptyB]

lemma opencodeStep_content_nonempty (sid : String) (st : Unit) (raw : Json) :
    ((opencodeStep sid st raw).2.1).all contentNonemptyB = true := by
  unfold opencodeStep
  dsimp only
  split
  · rfl
  · split
    · rfl
    · exact opencodeInterpretEvent_content_nonempty sid _

/-- C10: in every adapter's streaming path, every emitted Content chunk
carries a non-empty string (the interpreters never send an empty Content
chunk). -/
theorem c10_content_chunks_nonempty :
    (∀ frames, (claudeRun frames).all contentNonemptyB = true) ∧
    (∀ frames, (geminiRun frames).all contentNonemptyB = true) ∧
    (∀ sid frames, (opencodeRun sid frames).all contentNonemptyB = true) :=
  ⟨fun frames => runStream_all claudeStep contentNonemptyB
      claudeStep_content_nonempty frames none,
   fun frames => runStream_all geminiStep contentNonemptyB
      geminiStep_content_nonempty frames _,
   fun sid frames => runStream_all (opencodeStep sid) contentNonemptyB
      (opencodeStep_content_nonempty sid) frames ()⟩

/-- C9: for the Anthropic-style adapter, [System "be terse", User "2+2?"]
with no tools builds a vendor request with system = "be terse" and exactly
one user message (the system text is never duplicated into the message
list), and the vendor body with one text block "4" and stop reason
"end_turn" maps to ChatResponse with content "4", no tool calls, and
finish reason Stop. -/
theorem c9_claude_scenario_a :
    claudeBuildRequest "claude-sonnet"
        [{ role := .System, content := some "be terse", tool_calls := none,
           tool_call_id := none },
         { role := .User, content := some "2+2?", tool_calls := none,
           tool_call_id := none }] [] none =
      { model := "claude-sonnet", max_tokens := 8192, system := some "be terse",
        messages := [{ role := "user", content := .Text "2+2?" }],
        tools := [], stream := none } ∧
    decodeAnthropicResponse
        (Json.obj [("content", Json.arr [Json.obj [("type", Json.str "text"),
                                                   ("text", Json.str "4")]]),
                   ("stop_reason", Json.str "end_turn")]) =
      some { content := [.Text "4"], stop_reason := some "end_turn", error := none } ∧
    claudeChatOfResponse
        { content := [.Text "4"], stop_reason := some "end_turn", error := none } =
      .ok { content := some "4", tool_calls := [], finish_reason := .Stop } :=
  ⟨rfl, rfl, rfl⟩

/-! ## Invalid frames are skipped (claim C8) -/

/-- An event on which the step is a no-op can be dropped from a run. -/
lemma runStream_skip_noop {σ ε : Type} (step : σ → ε → σ × List StreamChunk × Bool)
    (e : ε) (h : ∀ st, step st e = (st, [], false)) :
    ∀ (xs ys : List (Option ε)) (st : σ),
      runStream step st (xs ++ some e :: ys) = runStream step st (xs ++ ys) := by
  intro xs
  induction xs with
  | nil => intro ys st; simp [runStream, h]
  | cons f rest ih =>
      intro ys st
      cases f <;> simp [runStream, ih]

/-- An OpenCode event whose unwrapped payload does not decode to a known
event shape produces no chunk and does not terminate. -/
lemma opencodeStep_undecodable (sid : String) (j : Json)
    (h : decodeEventPayload (opencodeUnwrapPayload j) = none) :
    opencodeStep sid () j = ((), [], false) := by
  unfold opencodeStep
  dsimp only
  split
  · rfl
  · rw [h]

/-- C8: in every adapter's streaming path, an SSE frame whose data payload
fails to parse as JSON (modelled as a `none` parse outcome) — or, for the
OpenCode path, parses as JSON but not as the expected event shape — is
skipped without terminating the stream or emitting any chunk, and the
remaining frames are interpreted exactly as if the bad frame were absent. -/
theorem c8_invalid_frames_skipped :
    (∀ xs ys, claudeRun (xs ++ none :: ys) = claudeRun (xs ++ ys)) ∧
    (∀ xs ys, geminiRun (xs ++ none :: ys) = geminiRun (xs ++ ys)) ∧
    (∀ sid xs ys, opencodeRun sid (xs ++ none :: ys) = opencodeRun sid (xs ++ ys)) ∧
    (∀ sid (j : Json) xs ys, decodeEventPayload (opencodeUnwrapPayload j) = none →
      opencodeRun sid (xs ++ some j :: ys) = opencodeRun sid (xs ++ ys)) :=
  ⟨fun xs ys => runStream_skip_none claudeStep xs ys none,
   fun xs ys => runStream_skip_none geminiStep xs ys _,
   fun sid xs ys => runStream_skip_none (opencodeStep sid) xs ys (),
   fun sid j xs ys h =>
     runStream_skip_noop (opencodeStep sid) j
       (fun _ => opencodeStep_undecodable sid j h) xs ys ()⟩

/-- Witness for C8: a frame that is valid JSON (`5`) but not an event shape
is dropped from a concrete OpenCode run. -/
theorem c8_invalid_frames_skipped_witness :
    opencodeRun "s1" ([none] ++ some (Json.num 5) :: [none]) =
      opencodeRun "s1" ([none] ++ [none]) :=
  c8_invalid_frames_skipped.2.2.2 "s1" (Json.num 5) [none] [none] rfl

/-! ## ToolCallDelta ids follow ToolCallStart ids (claim C6) -/

/-- Ids of the ToolCallStart chunks of a list, accumulated onto `seen`. -/
def startsSeen (seen : List String) : List StreamChunk → List String
  | [] => seen
  | .ToolCallStart id _ :: rest => startsSeen (id :: seen) rest
  | _ :: rest => startsSeen seen rest

/-- Every ToolCallDelta in the list carries an id of an earlier
ToolCallStart (or one of the `seen` ids). -/
def deltasCoveredB (seen : List String) : List StreamChunk → Bool
  | [] => true
  | .ToolCallStart id _ :: rest => deltasCoveredB (id :: seen) rest
  | .ToolCallDelta id _ :: rest => seen.contains id && deltasCoveredB seen rest
  | _ :: rest => deltasCoveredB seen rest

lemma deltasCoveredB_append (a b : List StreamChunk) (seen : List String) :
    deltasCoveredB seen (a ++ b) =
      (deltasCoveredB seen a && deltasCoveredB (startsSeen seen a) b) := by
  induction a generalizing seen with
  | nil => simp [deltasCoveredB, startsSeen]
  | cons c rest ih =>
      cases c <;> simp [deltasCoveredB, startsSeen, ih, Bool.and_assoc]

/-- A run is delta-covered once each step emission is covered and the step
preserves the invariant tying interpreter state to the seen-ids list. -/
lemma runStream_covered {σ ε : Type} (step : σ → ε → σ × List StreamChunk × Bool)
    (I : σ → List String → Prop)
    (hstep : ∀ st e seen, I st seen →
      deltasCoveredB seen (step st e).2.1 = true ∧
      I (step st e).1 (startsSeen seen (step st e).2.1)) :
    ∀ (frames : List (Option ε)) (st : σ) (seen : List String), I st seen →
      deltasCoveredB seen (runStream step st frames) = true := by
  intro frames
  induction frames with
  | nil => intro st seen _; simp [runStream, deltasCoveredB]
  | cons f rest ih =>
      intro st seen hI
      cases f with
      | none => simpa [runStream] using ih st seen hI
      | some e =>
          have h := hstep st e seen hI
          simp only [runStream, deltasCoveredB_append, Bool.and_eq_true]
          refine ⟨h.1, ?_⟩
          by_cases hterm : (step st e).2.2
          · simp [hterm, deltasCoveredB]
          · simpa [hterm] using ih _ _ h.2

/-- Folds of the emit-and-accumulate shape preserve delta coverage when each
emission is covered under every seen-ids list. -/
lemma foldl_emit_covered {σ α : Type} (f : σ → α → σ × List StreamChunk)
    (h : ∀ st x seen, deltasCoveredB seen ((f st x).2) = true) :
    ∀ (xs : List α) (init : σ × List StreamChunk) (seen : List String),
      deltasCoveredB seen init.2 = true →
      deltasCoveredB seen
        ((xs.foldl (fun r x => ((f r.1 x).1, r.2 ++ (f r.1 x).2)) init).2) = true := by
  intro xs
  induction xs with
  | nil => intro init seen hi; simpa using hi
  | cons x rest ih =>
      intro init seen hi
      simp only [List.foldl_cons]
      exact ih _ _ (by simp [deltasCoveredB_append, hi, h])

lemma claudeStep_covered (st : Option String) (e : AnthropicStreamEvent)
    (seen : List String) (hI : ∀ id, st = some id → seen.contains id = true) :
    deltasCoveredB seen (claudeStep st e).2.1 = true ∧
    (∀ id, (claudeStep st e).1 = some id →
      (startsSeen seen (claudeStep st e).2.1).contains id = true) := by
  unfold claudeStep
  repeat' split
  all_goals simp_all [deltasCoveredB, startsSeen]

lemma geminiPartStep_covered (st : GeminiStreamState) (part : GeminiPart)
    (seen : List String) :
    deltasCoveredB seen ((geminiPartStep st part).2) = true := by
  unfold geminiPartStep
  cases hfc : part.function_call <;> cases ht : part.text <;> simp only [hfc, ht]
  all_goals try split
  all_goals simp [deltasCoveredB, List.contains_cons]

lemma geminiCandStep_covered (st : GeminiStreamState) (c : GeminiCandidate)
    (seen : List String) :
    deltasCoveredB seen ((geminiCandStep st c).2) = true := by
  unfold geminiCandStep
  have hfold :
      ∀ (parts : List GeminiPart) (init : GeminiStreamState × List StreamChunk)
        (seen : List String), deltasCoveredB seen init.2 = true →
        deltasCoveredB seen ((parts.foldl (fun r part =>
            let s := geminiPartStep r.1 part
            (s.1, r.2 ++ s.2)) init).2) = true := by
    intro parts init seen hi
    exact foldl_emit_covered geminiPartStep geminiPartStep_covered parts init seen hi
  cases hfr : c.finish_reason <;> simp only [hfr]
  · exact hfold _ _ _ rfl
  · simp only [deltasCoveredB_append, Bool.and_eq_true]
    exact ⟨hfold _ _ _ rfl, rfl⟩

lemma geminiStep_covered (st : GeminiStreamState) (resp : GeminiResponse)
    (seen : List String) :
    deltasCoveredB seen ((geminiStep st resp).2.1) = true := by
  unfold geminiStep
  have hfold :
      ∀ (cands : List GeminiCandidate) (init : GeminiStreamState × List StreamChunk)
        (seen : List String), deltasCoveredB seen init.2 = true →
        deltasCoveredB seen ((cands.foldl (fun r c =>
            let s := geminiCandStep r.1 c
            (s.1, r.2 ++ s.2)) init).2) = true := by
    intro cands init seen hi
    exact foldl_emit_covered geminiCandStep geminiCandStep_covered cands init seen hi
  cases hc : resp.candidates <;> cases he : resp.error <;>
    simp only [hc, he, deltasCoveredB_append, Bool.and_eq_true] <;>
    first
      | rfl
      | exact hfold _ _ _ rfl
      | exact ⟨hfold _ _ _ rfl, rfl⟩
      | exact ⟨rfl, rfl⟩

lemma opencodeInterpretEvent_covered (sid : String) (ev : EventPayload)
    (seen : List String) :
    deltasCoveredB seen ((opencodeInterpretEvent sid ev).1) = true := by
  unfold opencodeInterpretEvent
  repeat' split
  all_goals try simp_all [deltasCoveredB, startsSeen, List.contains_cons]
  all_goals try split
  all_goals simp_all [deltasCoveredB, startsSeen, List.contains_cons]

lemma opencodeStep_covered (sid : String) (st : Unit) (raw : Json)
    (seen : List String) :
    deltasCoveredB seen ((opencodeStep sid st raw).2.1) = true := by
  unfold opencodeStep
  dsimp only
  split
  · rfl
  · split
    · rfl
    · exact opencodeInterpretEvent_covered sid _ seen

/-- C6: in every adapter's streaming path, every ToolCallDelta chunk carries
an id that equals the id of a ToolCallStart chunk emitted earlier in the
same stream. -/
theorem c6_tool_call_delta_ids_started :
    (∀ frames, deltasCoveredB [] (claudeRun frames) = true) ∧
    (∀ frames, deltasCoveredB [] (geminiRun frames) = true) ∧
    (∀ sid frames, deltasCoveredB [] (opencodeRun sid frames) = true) :=
  ⟨fun frames =>
     runStream_covered claudeStep
       (fun st seen => ∀ id, st = some id → seen.contains id = true)
       (fun st e seen hI => claudeStep_covered st e seen hI)
       frames none [] (by intro id h; cases h),
   fun frames =>
     runStream_covered geminiStep (fun _ _ => True)
       (fun st e seen _ => ⟨geminiStep_covered st e seen, trivial⟩)
       frames _ [] trivial,
   fun sid frames =>
     runStream_covered (opencodeStep sid) (fun _ _ => True)
       (fun st e seen _ => ⟨opencodeStep_covered sid st e seen, trivial⟩)
       frames () [] trivial⟩

/-! ## Terminality of Done / Error chunks (claim C2) -/

def isErrorChunk : StreamChunk → Bool
  | .Error _ => true
  | _ => false

def isTermChunk : StreamChunk → Bool
  | .Done _ => true
  | .Error _ => true
  | _ => false

/-- No chunk of the list follows the first chunk satisfying `p`. -/
def terminalAfterB (p : StreamChunk → Bool) : List StreamChunk → Bool
  | [] => true
  | c :: rest => if p c then rest.isEmpty else terminalAfterB p rest

lemma terminalAfterB_append_of_not_any (p : StreamChunk → Bool)
    (cs l : List StreamChunk) (h : cs.any p = false) :
    terminalAfterB p (cs ++ l) = terminalAfterB p l := by
  induction cs with
  | nil => rfl
  | cons c rest ih =>
      simp only [List.any_cons, Bool.or_eq_false_iff] at h
      simp [terminalAfterB, h.1, ih h.2]

lemma terminalAfterB_of_not_any (p : StreamChunk → Bool) (cs : List StreamChunk)
    (h : cs.any p = false) : terminalAfterB p cs = true := by
  have := terminalAfterB_append_of_not_any p cs [] h
  simpa using this

lemma terminalAfterB_singleton (p : StreamChunk → Bool) (c : StreamChunk) :
    terminalAfterB p [c] = true := by
  by_cases h : p c <;> simp [terminalAfterB, h]

/-- A run never emits anything after a `p`-chunk, provided each step's own
emission satisfies that and any step emitting a `p`-chunk terminates the
task. -/
lemma runStream_terminal {σ ε : Type} (step : σ → ε → σ × List StreamChunk × Bool)
    (p : StreamChunk → Bool)
    (hstep : ∀ st e, terminalAfterB p (step st e).2.1 = true ∧
      ((step st e).2.1.any p = true → (step st e).2.2 = true)) :
    ∀ (frames : List (Option ε)) (st : σ),
      terminalAfterB p (runStream step st frames) = true := by
  intro frames
  induction frames with
  | nil => intro st; rfl
  | cons f rest ih =>
      intro st
      cases f with
      | none => simpa [runStream] using ih st
      | some e =>
          simp only [runStream]
          by_cases hany : (step st e).2.1.any p = true
          · have hterm := (hstep st e).2 hany
            simpa [hterm] using (hstep st e).1
          · rw [terminalAfterB_append_of_not_any p _ _ (by simpa using hany)]
            by_cases hterm : (step st e).2.2
            · simp [hterm, terminalAfterB]
            · simpa [hterm] using ih (step st e).1

lemma claudeStep_error_terminal (st : Option String) (e : AnthropicStreamEvent) :
    terminalAfterB isErrorChunk (claudeStep st e).2.1 = true ∧
    ((claudeStep st e).2.1.any isErrorChunk = true → (claudeStep st e).2.2 = true) := by
  unfold claudeStep
  repeat' split
  all_goals simp [terminalAfterB, isErrorChunk]

lemma geminiPartStep_no_error (st : GeminiStreamState) (part : GeminiPart) :
    ((geminiPartStep st part).2).all (fun c => !(isErrorChunk c)) = true := by
  unfold geminiPartStep
  cases hfc : part.function_call <;> cases ht : part.text <;> simp only [hfc, ht]
  all_goals try split
  all_goals simp [isErrorChunk]

lemma geminiCandStep_no_error (st : GeminiStreamState) (c : GeminiCandidate) :
    ((geminiCandStep st c).2).all (fun c => !(isErrorChunk c)) = true := by
  unfold geminiCandStep
  have hfold :
      ∀ (parts : List GeminiPart) (init : GeminiStreamState × List StreamChunk),
        init.2.all (fun c => !(isErrorChunk c)) = true →
        ((parts.foldl (fun r part =>
            let s := geminiPartStep r.1 part
            (s.1, r.2 ++ s.2)) init).2).all (fun c => !(isErrorChunk c)) = true := by
    intro parts init hi
    exact foldl_emit_all geminiPartStep _ geminiPartStep_no_error parts init hi
  cases hfr : c.finish_reason <;> simp only [hfr]
  · exact hfold _ _ rfl
  · simp only [List.all_append, Bool.and_eq_true]
    exact ⟨hfold _ _ rfl, rfl⟩

lemma geminiStep_error_terminal (st : GeminiStreamState) (resp : GeminiResponse) :
    terminalAfterB isErrorChunk (geminiStep st resp).2.1 = true ∧
    ((geminiStep st resp).2.1.any isErrorChunk = true → (geminiStep st resp).2.2 = true) := by
  unfold geminiStep
  have hfold :
      ∀ (cands : List GeminiCandidate) (init : GeminiStreamState × List StreamChunk),
        init.2.all (fun c => !(isErrorChunk c)) = true →
        ((cands.foldl (fun r c =>
            let s := geminiCandStep r.1 c
            (s.1, r.2 ++ s.2)) init).2).all (fun c => !(isErrorChunk c)) = true := by
    intro cands init hi
    exact foldl_emit_all geminiCandStep _ geminiCandStep_no_error cands init hi
  have hany :
      ∀ (cs : List StreamChunk), cs.all (fun c => !(isErrorChunk c)) = true →
        cs.any isErrorChunk = false := by
    intro cs h
    induction cs with
    | nil => rfl
    | cons c rest ih =>
        simp only [List.all_cons, Bool.and_eq_true, Bool.not_eq_true'] at h
        simp [List.any_cons, h.1, ih h.2]
  cases hc : resp.candidates <;> cases he : resp.error <;> simp only [hc, he]
  · exact ⟨rfl, by intro h; cases h⟩
  · refine ⟨?_, fun _ => trivial⟩
    rw [terminalAfterB_append_of_not_any _ _ _ (hany [] rfl)]
    exact terminalAfterB_singleton _ _
  · rename_i cands
    refine ⟨terminalAfterB_of_not_any _ _ (hany _ (hfold cands (st, []) rfl)), ?_⟩
    intro h
    rw [hany _ (hfold cands (st, []) rfl)] at h
    cases h
  · rename_i cands err
    refine ⟨?_, fun _ => trivial⟩
    rw [terminalAfterB_append_of_not_any _ _ _ (hany _ (hfold cands (st, []) rfl))]
    exact terminalAfterB_singleton _ _

lemma opencodeInterpretEvent_term_terminal (sid : String) (ev : EventPayload) :
    terminalAfterB isTermChunk (opencodeInterpretEvent sid ev).1 = true ∧
    ((opencodeInterpretEvent sid ev).1.any isTermChunk = true →
      (opencodeInterpretEvent sid ev).2 = true) := by
  unfold opencodeInterpretEvent
  repeat' split
  all_goals try simp_all [terminalAfterB, isTermChunk]
  all_goals try split
  all_goals simp_all [terminalAfterB, isTermChunk]

lemma opencodeStep_term_terminal (sid : String) (st : Unit) (raw : Json) :
    terminalAfterB isTermChunk (opencodeStep sid st raw).2.1 = true ∧
    ((opencodeStep sid st raw).2.1.any isTermChunk = true →
      (opencodeStep sid st raw).2.2 = true) := by
  unfold opencodeStep
  dsimp only
  split
  · exact ⟨rfl, by intro h; cases h⟩
  · split
    · exact ⟨rfl, by intro h; cases h⟩
    · exact opencodeInterpretEvent_term_terminal sid _

lemma opencodeStep_error_terminal (sid : String) (st : Unit) (raw : Json) :
    terminalAfterB isErrorChunk (opencodeStep sid st raw).2.1 = true ∧
    ((opencodeStep sid st raw).2.1.any isErrorChunk = true →
      (opencodeStep sid st raw).2.2 = true) := by
  have h := opencodeStep_term_terminal sid st raw
  have hsub : ∀ (cs : List StreamChunk), cs.any isErrorChunk = true →
      cs.any isTermChunk = true := by
    intro cs hcs
    rcases List.any_eq_true.mp hcs with ⟨c, hc, hpc⟩
    refine List.any_eq_true.mpr ⟨c, hc, ?_⟩
    cases c <;> simp_all [isErrorChunk, isTermChunk]
  have hterm : ∀ (cs : List StreamChunk), terminalAfterB isTermChunk cs = true →
      terminalAfterB isErrorChunk cs = true := by
    intro cs
    induction cs with
    | nil => intro _; rfl
    | cons c rest ih =>
        intro hcs
        cases c <;> simp_all [terminalAfterB, isTermChunk, isErrorChunk]
  exact ⟨hterm _ h.1, fun hx => h.2 (hsub _ hx)⟩

/-- A step that always terminates on event `e` makes everything after `e`
in the frame list unreachable. -/
lemma runStream_stop_at {σ ε : Type} (step : σ → ε → σ × List StreamChunk × Bool)
    (e : ε) (h : ∀ st, (step st e).2.2 = true) :
    ∀ (xs ys : List (Option ε)) (st : σ),
      runStream step st (xs ++ some e :: ys) = runStream step st (xs ++ [some e]) := by
  intro xs
  induction xs with
  | nil => intro ys st; simp [runStream, h]
  | cons f rest ih =>
      intro ys st
      cases f <;> simp [runStream, ih]

/-- A concrete Gemini snapshot frame carrying a finish reason. -/
def geminiStopFrame : GeminiResponse :=
  { candidates := some [{ content := none, finish_reason := some "STOP" }],
    error := none }

/-- C2 counterexample: the Gemini interpreter emits Done for every streamed
frame carrying a finish reason and does not stop, so a second such frame
emits a second chunk after the first Done — Done is not sequence-terminal. -/
theorem c2_counterexample_gemini_done_not_terminal :
    geminiRun [some geminiStopFrame, some geminiStopFrame] =
      [.Done .Stop, .Done .Stop] ∧
    terminalAfterB isTermChunk
      (geminiRun [some geminiStopFrame, some geminiStopFrame]) = false :=
  ⟨rfl, rfl⟩

/-- C2 as amended: an Error chunk is sequence-terminal in every adapter's
streaming interpretation; in the local-orchestrator (OpenCode) adapter a
Done chunk is also sequence-terminal; and in the Anthropic adapter a
`message_stop` frame terminates the interpretation, so its Done is final —
but a Done emitted from Claude's `message_delta` or from a Gemini snapshot
may be followed by further chunks. -/
theorem c2_amended_done_error_terminality :
    (∀ frames, terminalAfterB isErrorChunk (claudeRun frames) = true) ∧
    (∀ frames, terminalAfterB isErrorChunk (geminiRun frames) = true) ∧
    (∀ sid frames, terminalAfterB isErrorChunk (opencodeRun sid frames) = true) ∧
    (∀ sid frames, terminalAfterB isTermChunk (opencodeRun sid frames) = true) ∧
    (∀ (e : AnthropicStreamEvent), e.event_type = "message_stop" →
      ∀ xs ys, claudeRun (xs ++ some e :: ys) = claudeRun (xs ++ [some e])) :=
  ⟨fun frames => runStream_terminal claudeStep isErrorChunk
      claudeStep_error_terminal frames none,
   fun frames => runStream_terminal geminiStep isErrorChunk
      geminiStep_error_terminal frames _,
   fun sid frames => runStream_terminal (opencodeStep sid) isErrorChunk
      (opencodeStep_error_terminal sid) frames (),
   fun sid frames => runStream_terminal (opencodeStep sid) isTermChunk
      (opencodeStep_term_terminal sid) frames (),
   fun e he xs ys =>
     runStream_stop_at claudeStep e
       (fun st => by unfold claudeStep; rw [he]; rfl) xs ys none⟩

/-- A concrete bare `message_stop` stream event. -/
def claudeMsgStopEvent : AnthropicStreamEvent :=
  { event_type := "message_stop", content_block := none, delta := none,
    message := none, error := none }

/-- Witness for C2 as amended: a concrete `message_stop` frame cuts off a
trailing frame in a concrete Claude run. -/
theorem c2_amended_witness :
    claudeRun ([] ++ some claudeMsgStopEvent :: [none]) =
      claudeRun ([] ++ [some claudeMsgStopEvent]) :=
  c2_amended_done_error_terminality.2.2.2.2 claudeMsgStopEvent rfl [] [none]

/-! ## Tool calls and finish reasons (claim C1) -/

def isStartChunk : StreamChunk → Bool
  | .ToolCallStart _ _ => true
  | _ => false

def isDoneChunk : StreamChunk → Bool
  | .Done _ => true
  | _ => false

def anyStartB (l : List StreamChunk) : Bool := l.any isStartChunk

/-- Every Done chunk that is preceded (anywhere earlier, tracked by `flag`)
by a ToolCallStart carries finish reason ToolCalls. -/
def donesToolCallsB (flag : Bool) : List StreamChunk → Bool
  | [] => true
  | .ToolCallStart _ _ :: rest => donesToolCallsB true rest
  | .Done fr :: rest =>
      (!flag || decide (fr = .ToolCalls)) && donesToolCallsB flag rest
  | _ :: rest => donesToolCallsB flag rest

lemma donesToolCallsB_append (a b : List StreamChunk) (flag : Bool) :
    donesToolCallsB flag (a ++ b) =
      (donesToolCallsB flag a && donesToolCallsB (flag || anyStartB a) b) := by
  induction a generalizing flag with
  | nil => simp [donesToolCallsB, anyStartB]
  | cons c rest ih =>
      cases c <;>
        simp [donesToolCallsB, anyStartB, isStartChunk, List.any_cons, ih,
          Bool.and_assoc, Bool.or_assoc]

lemma donesToolCallsB_of_no_done (l : List StreamChunk) (flag : Bool) :
    l.all (fun c => !(isDoneChunk c)) = true → donesToolCallsB flag l = true := by
  induction l generalizing flag with
  | nil => intro _; rfl
  | cons c rest ih =>
      intro h
      rw [List.all_cons, Bool.and_eq_true] at h
      have h2 := h.2
      cases c with
      | Content t => exact ih flag h2
      | ToolCallStart i n => exact ih true h2
      | ToolCallDelta i a => exact ih flag h2
      | Done fr => exact absurd h.1 (by simp [isDoneChunk])
      | Error m => exact ih flag h2

/-- A concrete Anthropic sync response carrying one tool-use block but a
vendor stop reason of `end_turn`. -/
def claudeToolUseEndTurnResponse : AnthropicResponse :=
  { content := [.ToolUse "toolu_1" "get_time" (Json.obj [])],
    stop_reason := some "end_turn", error := none }

/-- C1 counterexample: the Anthropic sync path maps `stop_reason` alone to
the finish reason, so a response containing a tool call but reporting
`end_turn` yields finish_reason Stop, not ToolCalls. -/
theorem c1_counterexample_claude_no_override :
    claudeChatOfResponse claudeToolUseEndTurnResponse =
      .ok { content := none,
            tool_calls := [{ id := "toolu_1", name := "get_time",
                             arguments := emptyObjStr }],
            finish_reason := .Stop } ∧
    FinishReason.Stop ≠ FinishReason.ToolCalls :=
  ⟨rfl, by decide⟩

lemma geminiPartStep_pend (st : GeminiStreamState) (part : GeminiPart) :
    (st.pending_tool_calls ≠ [] →
      (geminiPartStep st part).1.pending_tool_calls ≠ []) ∧
    (anyStartB ((geminiPartStep st part).2) = true →
      (geminiPartStep st part).1.pending_tool_calls ≠ []) ∧
    ((geminiPartStep st part).2.all (fun c => !(isDoneChunk c)) = true) := by
  unfold geminiPartStep
  cases hfc : part.function_call <;> cases ht : part.text <;> simp only [hfc, ht]
  all_goals try split
  all_goals simp_all [anyStartB, isStartChunk, isDoneChunk]

/-- The pending-tool-calls invariant over a parts fold: a raised flag (or a
ToolCallStart among the accumulated chunks) guarantees a non-empty pending
list, and the accumulated chunks contain no Done. -/
lemma geminiPartsFold_pend (parts : List GeminiPart) :
    ∀ (init : GeminiStreamState × List StreamChunk) (flag : Bool),
      ((flag || anyStartB init.2) = true → init.1.pending_tool_calls ≠ []) →
      init.2.all (fun c => !(isDoneChunk c)) = true →
      (((flag || anyStartB (parts.foldl (fun r part =>
            let s := geminiPartStep r.1 part
            (s.1, r.2 ++ s.2)) init).2) = true →
        (parts.foldl (fun r part =>
            let s := geminiPartStep r.1 part
            (s.1, r.2 ++ s.2)) init).1.pending_tool_calls ≠ []) ∧
       ((parts.foldl (fun r part =>
            let s := geminiPartStep r.1 part
            (s.1, r.2 ++ s.2)) init).2.all (fun c => !(isDoneChunk c)) = true)) := by
  induction parts with
  | nil => intro init flag hinv hnd; exact ⟨hinv, hnd⟩
  | cons p rest ih =>
      intro init flag hinv hnd
      simp only [List.foldl_cons]
      have hp := geminiPartStep_pend init.1 p
      refine ih ((geminiPartStep init.1 p).1, init.2 ++ (geminiPartStep init.1 p).2)
        flag ?_ ?_
      · intro h
        by_cases hs : anyStartB (geminiPartStep init.1 p).2 = true
        · exact hp.2.1 hs
        · apply hp.1
          apply hinv
          have hs2 : anyStartB (geminiPartStep init.1 p).2 = false :=
            Bool.eq_false_iff.mpr hs
          have hsplit : anyStartB (init.2 ++ (geminiPartStep init.1 p).2) =
              (anyStartB init.2 || anyStartB (geminiPartStep init.1 p).2) := by
            simp [anyStartB, List.any_append]
          rw [hsplit, hs2] at h
          simpa using h
      · simp only [List.all_append, Bool.and_eq_true]
        exact ⟨hnd, hp.2.2⟩

lemma gemini_done_chunk_ok (flag2 : Bool) (pend : List (String × String × String))
    (reason : String) (h : flag2 = true → pend ≠ []) :
    donesToolCallsB flag2
      [.Done (if pend.isEmpty then geminiParseFinishReason (some reason)
              else .ToolCalls)] = true := by
  cases hf : flag2
  · simp [donesToolCallsB]
  · have hp := h hf
    have hpe : pend.isEmpty = false := by
      cases pend
      · exact absurd rfl hp
      · rfl
    simp [donesToolCallsB, hpe]

lemma geminiCandStep_dones (st : GeminiStreamState) (c : GeminiCandidate) (flag : Bool)
    (hinv : flag = true → st.pending_tool_calls ≠ []) :
    donesToolCallsB flag ((geminiCandStep st c).2) = true ∧
    ((flag || anyStartB ((geminiCandStep st c).2)) = true →
      (geminiCandStep st c).1.pending_tool_calls ≠ []) := by
  unfold geminiCandStep
  dsimp only
  have h0 : ∀ (parts : List GeminiPart),
      ((flag || anyStartB (parts.foldl (fun r part =>
          let s := geminiPartStep r.1 part
          (s.1, r.2 ++ s.2)) (st, [])).2) = true →
        (parts.foldl (fun r part =>
          let s := geminiPartStep r.1 part
          (s.1, r.2 ++ s.2)) (st, [])).1.pending_tool_calls ≠ []) ∧
      ((parts.foldl (fun r part =>
          let s := geminiPartStep r.1 part
          (s.1, r.2 ++ s.2)) (st, [])).2.all (fun c => !(isDoneChunk c)) = true) := by
    intro parts
    refine geminiPartsFold_pend parts (st, []) flag ?_ rfl
    intro h
    apply hinv
    simpa [anyStartB] using h
  cases hcc : c.content <;> cases hfr : c.finish_reason <;> simp only [hcc, hfr]
  case none.none =>
    exact ⟨donesToolCallsB_of_no_done _ _ (h0 []).2, (h0 []).1⟩
  case none.some reason =>
    constructor
    · rw [donesToolCallsB_append]
      simp only [Bool.and_eq_true]
      refine ⟨donesToolCallsB_of_no_done _ _ (h0 []).2, ?_⟩
      exact gemini_done_chunk_ok _ _ reason (fun h => (h0 []).1 h)
    · intro h
      apply (h0 []).1
      have : anyStartB ((List.foldl (fun r part =>
          let s := geminiPartStep r.1 part
          (s.1, r.2 ++ s.2)) (st, []) []).2 ++
            [.Done (if (List.foldl (fun r part =>
              let s := geminiPartStep r.1 part
              (s.1, r.2 ++ s.2)) (st, []) []).1.pending_tool_calls.isEmpty
              then geminiParseFinishReason (some reason) else .ToolCalls)]) =
          anyStartB (List.foldl (fun r part =>
          let s := geminiPartStep r.1 part
          (s.1, r.2 ++ s.2)) (st, []) []).2 := by
        simp [anyStartB, List.any_append, isStartChunk]
      rw [this] at h
      exact h
  case some.none ct =>
    exact ⟨donesToolCallsB_of_no_done _ _ (h0 ct.parts).2, (h0 ct.parts).1⟩
  case some.some ct reason =>
    constructor
    · rw [donesToolCallsB_append]
      simp only [Bool.and_eq_true]
      refine ⟨donesToolCallsB_of_no_done _ _ (h0 ct.parts).2, ?_⟩
      exact gemini_done_chunk_ok _ _ reason (fun h => (h0 ct.parts).1 h)
    · intro h
      apply (h0 ct.parts).1
      have : anyStartB ((List.foldl (fun r part =>
          let s := geminiPartStep r.1 part
          (s.1, r.2 ++ s.2)) (st, []) ct.parts).2 ++
            [.Done (if (List.foldl (fun r part =>
              let s := geminiPartStep r.1 part
              (s.1, r.2 ++ s.2)) (st, []) ct.parts).1.pending_tool_calls.isEmpty
              then geminiParseFinishReason (some reason) else .ToolCalls)]) =
          anyStartB (List.foldl (fun r part =>
          let s := geminiPartStep r.1 part
          (s.1, r.2 ++ s.2)) (st, []) ct.parts).2 := by
        simp [anyStartB, List.any_append, isStartChunk]
      rw [this] at h
      exact h

lemma geminiCandsFold_dones (cands : List GeminiCandidate) :
    ∀ (init : GeminiStreamState × List StreamChunk) (flag : Bool),
      ((flag || anyStartB init.2) = true → init.1.pending_tool_calls ≠ []) →
      donesToolCallsB flag init.2 = true →
      ((donesToolCallsB flag (cands.foldl (fun r c =>
            let s := geminiCandStep r.1 c
            (s.1, r.2 ++ s.2)) init).2 = true) ∧
       ((flag || anyStartB (cands.foldl (fun r c =>
            let s := geminiCandStep r.1 c
            (s.1, r.2 ++ s.2)) init).2) = true →
        (cands.foldl (fun r c =>
            let s := geminiCandStep r.1 c
            (s.1, r.2 ++ s.2)) init).1.pending_tool_calls ≠ [])) := by
  induction cands with
  | nil => intro init flag hinv hd; exact ⟨hd, hinv⟩
  | cons c rest ih =>
      intro init flag hinv hd
      simp only [List.foldl_cons]
      have hc := geminiCandStep_dones init.1 c (flag || anyStartB init.2) hinv
      refine ih ((geminiCandStep init.1 c).1, init.2 ++ (geminiCandStep init.1 c).2)
        flag ?_ ?_
      · intro h
        apply hc.2
        have hsplit : anyStartB (init.2 ++ (geminiCandStep init.1 c).2) =
            (anyStartB init.2 || anyStartB ((geminiCandStep init.1 c).2)) := by
          simp [anyStartB, List.any_append]
        rw [hsplit] at h
        simpa [Bool.or_assoc] using h
      · rw [donesToolCallsB_append]
        simp only [Bool.and_eq_true]
        exact ⟨hd, hc.1⟩

lemma geminiStep_dones (st : GeminiStreamState) (resp : GeminiResponse) (flag : Bool)
    (hinv : flag = true → st.pending_tool_calls ≠ []) :
    donesToolCallsB flag ((geminiStep st resp).2.1) = true ∧
    ((flag || anyStartB ((geminiStep st resp).2.1)) = true →
      (geminiStep st resp).1.pending_tool_calls ≠ []) := by
  unfold geminiStep
  dsimp only
  have h0 : (flag || anyStartB ((st, ([] : List StreamChunk)).2)) = true →
      (st, ([] : List StreamChunk)).1.pending_tool_calls ≠ [] := by
    intro h; apply hinv; simpa [anyStartB] using h
  cases hc : resp.candidates <;> cases he : resp.error <;> simp only [hc, he]
  case none.none =>
    refine ⟨rfl, ?_⟩
    intro h; apply hinv; simpa [anyStartB] using h
  case none.some err =>
    refine ⟨rfl, ?_⟩
    intro h; apply hinv
    simpa [anyStartB, isStartChunk] using h
  case some.none cands =>
    exact geminiCandsFold_dones cands (st, []) flag h0 rfl
  case some.some cands err =>
    have hf := geminiCandsFold_dones cands (st, []) flag h0 rfl
    constructor
    · rw [donesToolCallsB_append]
      simp only [Bool.and_eq_true]
      refine ⟨hf.1, ?_⟩
      cases flag || anyStartB (List.foldl (fun r c =>
          let s := geminiCandStep r.1 c
          (s.1, r.2 ++ s.2)) (st, []) cands).2 <;> rfl
    · intro h
      apply hf.2
      have hsplit : anyStartB ((List.foldl (fun r c =>
          let s := geminiCandStep r.1 c
          (s.1, r.2 ++ s.2)) (st, []) cands).2 ++ [.Error err.message]) =
          anyStartB (List.foldl (fun r c =>
          let s := geminiCandStep r.1 c
          (s.1, r.2 ++ s.2)) (st, []) cands).2 := by
        simp [anyStartB, List.any_append, isStartChunk]
      rw [hsplit] at h
      exact h

/-- Gemini stream-level: every Done chunk preceded by a ToolCallStart in the
same stream carries finish reason ToolCalls. -/
lemma geminiRun_dones_aux :
    ∀ (frames : List (Option GeminiResponse)) (st : GeminiStreamState) (flag : Bool),
      (flag = true → st.pending_tool_calls ≠ []) →
      donesToolCallsB flag (runStream geminiStep st frames) = true := by
  intro frames
  induction frames with
  | nil => intro st flag _; rfl
  | cons f rest ih =>
      intro st flag hinv
      cases f with
      | none => simpa [runStream] using ih st flag hinv
      | some e =>
          have hs := geminiStep_dones st e flag hinv
          simp only [runStream]
          rw [donesToolCallsB_append]
          simp only [Bool.and_eq_true]
          refine ⟨hs.1, ?_⟩
          by_cases hterm : (geminiStep st e).2.2
          · simp [hterm, donesToolCallsB]
          · simp only [hterm, if_false, Bool.false_eq_true]
            exact ih _ _ hs.2

lemma isEmpty_false_of_ne_nil {α : Type} (l : List α) (h : l ≠ []) :
    l.isEmpty = false := by
  cases l
  · exact absurd rfl h
  · rfl

lemma geminiChat_toolcalls_override (resp : GeminiResponse) (cr : ChatResponse)
    (h : geminiChatOfResponse resp = .ok cr) (hne : cr.tool_calls ≠ []) :
    cr.finish_reason = .ToolCalls := by
  unfold geminiChatOfResponse at h
  cases he : resp.error
  · rw [he] at h
    cases hh : (resp.candidates.getD []).head? with
    | none =>
        rw [hh] at h
        exact Except.noConfusion h
    | some candidate =>
        rw [hh] at h
        simp only [Except.ok.injEq] at h
        subst h
        simp only at hne ⊢
        rw [isEmpty_false_of_ne_nil _ hne]
        simp
  · rw [he] at h
    exact Except.noConfusion h

lemma opencodeChat_toolcalls_override (resp : MessageResponse) (cr : ChatResponse)
    (h : opencodeChatOfResponse resp = .ok cr) (hne : cr.tool_calls ≠ []) :
    cr.finish_reason = .ToolCalls := by
  unfold opencodeChatOfResponse at h
  cases he : resp.info.error
  · rw [he] at h
    simp only [Except.ok.injEq] at h
    subst h
    simp only at hne ⊢
    rw [isEmpty_false_of_ne_nil _ hne]
    simp
  · rw [he] at h
    exact Except.noConfusion h

lemma claudeChat_finish_from_stop_reason (resp : AnthropicResponse) (cr : ChatResponse)
    (h : claudeChatOfResponse resp = .ok cr) :
    cr.finish_reason = claudeParseFinishReason resp.stop_reason := by
  unfold claudeChatOfResponse at h
  cases he : resp.error
  · rw [he] at h
    simp only [Except.ok.injEq] at h
    subst h
    rfl
  · rw [he] at h
    exact Except.noConfusion h

/-- A chunk is allowed when it is not a Done chunk with a finish reason
other than Stop. -/
def doneStopB : StreamChunk → Bool
  | .Done fr => decide (fr = .Stop)
  | _ => true

lemma opencodeInterpretEvent_done_stop (sid : String) (ev : EventPayload) :
    ((opencodeInterpretEvent sid ev).1).all doneStopB = true := by
  unfold opencodeInterpretEvent
  repeat' split
  all_goals try simp_all [doneStopB]

lemma opencodeStep_done_stop (sid : String) (st : Unit) (raw : Json) :
    ((opencodeStep sid st raw).2.1).all doneStopB = true := by
  unfold opencodeStep
  dsimp only
  split
  · rfl
  · split
    · rfl
    · exact opencodeInterpretEvent_done_stop sid _

/-- C1 as amended: the Gemini and OpenCode sync responses override the
finish reason to ToolCalls whenever at least one tool call was produced, and
every Done of a Gemini stream preceded by a ToolCallStart carries ToolCalls;
but the Anthropic sync path maps the vendor stop reason alone (so ToolCalls
appears only when the vendor reports `tool_use`), and the OpenCode stream's
Done always carries Stop, tool calls or not. -/
theorem c1_amended_tool_calls_finish_reason :
    (∀ resp cr, geminiChatOfResponse resp = .ok cr → cr.tool_calls ≠ [] →
        cr.finish_reason = .ToolCalls) ∧
    (∀ resp cr, opencodeChatOfResponse resp = .ok cr → cr.tool_calls ≠ [] →
        cr.finish_reason = .ToolCalls) ∧
    (∀ resp cr, claudeChatOfResponse resp = .ok cr →
        cr.finish_reason = claudeParseFinishReason resp.stop_reason) ∧
    (∀ frames, donesToolCallsB false (geminiRun frames) = true) ∧
    (∀ sid frames, (opencodeRun sid frames).all doneStopB = true) :=
  ⟨geminiChat_toolcalls_override,
   opencodeChat_toolcalls_override,
   claudeChat_finish_from_stop_reason,
   fun frames => geminiRun_dones_aux frames _ false (fun h => Bool.noConfusion h),
   fun sid frames => runStream_all (opencodeStep sid) doneStopB
     (opencodeStep_done_stop sid) frames ()⟩

/-- A concrete Gemini sync response with one function-call part and a STOP
finish reason. -/
def c1GeminiWitnessResp : GeminiResponse :=
  { candidates := some
      [{ content := some
           { role := some "model",
             parts := [{ text := none,
                         function_call := some { name := "f", args := Json.obj [] },
                         function_response := none }] },
         finish_reason := some "STOP" }],
    error := none }

/-- Witness for C1 as amended: on a concrete Gemini response containing one
tool call and a vendor STOP reason, the mapped finish reason is ToolCalls. -/
theorem c1_amended_witness :
    ({ content := none,
       tool_calls := [{ id := "call_0", name := "f", arguments := emptyObjStr }],
       finish_reason := .ToolCalls } : ChatResponse).finish_reason = .ToolCalls :=
  c1_amended_tool_calls_finish_reason.1 c1GeminiWitnessResp
    { content := none,
      tool_calls := [{ id := "call_0", name := "f", arguments := emptyObjStr }],
      finish_reason := .ToolCalls }
    rfl (by decide)

/-! ## Retryability of HTTP errors (claim C4) -/

/-- Non-2xx handling in `GeminiProvider::chat` (lines 265-291): with a
parsed vendor error body, the message and `status` tag are kept and the
error is retryable iff the HTTP status is 429 or ≥500; otherwise a plain
non-retryable formatted error. -/
def geminiChatHttpError (status : Nat) (errorBody : Option GeminiError) :
    AIProviderError :=
  match errorBody with
  | some error =>
      let err := AIProviderError.new error.message
      let err := match error.status with
        | some s => err.with_type s
        | none => err
      if status = 429 ∨ 500 ≤ status then err.mark_retryable else err
  | none => AIProviderError.new "API error"

/-- Non-2xx handling in `GeminiProvider::chat_stream` (lines 398-414): never
retryable. -/
def geminiStreamHttpError (_status : Nat) (errorBody : Option GeminiError) :
    AIProviderError :=
  match errorBody with
  | some error => AIProviderError.new error.message
  | none => AIProviderError.new "API error"

/-- Transport-failure handling of the SSE event-stream connect in
`OpenCodeProvider::chat_stream` (lines 374-376): a plain error, never
retryable. -/
def opencodeSseConnectTransportError (msg : String) : AIProviderError :=
  AIProviderError.new ("Failed to connect to event stream: " ++ msg)

/-- Non-2xx handling of the SSE event-stream connect in
`OpenCodeProvider::chat_stream` (lines 378-383): never retryable. -/
def opencodeSseConnectStatusError (status : Nat) : AIProviderError :=
  AIProviderError.new ("Failed to connect to event stream (" ++ toString status ++ ")")

/-- Transport-failure handling of the async prompt post in
`OpenCodeProvider::chat_stream` (line 404): never retryable. -/
def opencodePromptPostTransportError (msg : String) : AIProviderError :=
  AIProviderError.new ("Failed to send message: " ++ msg)

/-- Non-2xx handling of the async prompt post in
`OpenCodeProvider::chat_stream` (lines 406-412): never retryable. -/
def opencodePromptPostStatusError (body : String) : AIProviderError :=
  AIProviderError.new ("Failed to send message: " ++ body)

/-- Transport-failure handling in `OpenCodeProvider::create_session`
(line 608), shared by the sync and streaming paths: never retryable. -/
def opencodeCreateSessionTransportError (msg : String) : AIProviderError :=
  AIProviderError.new ("Failed to create session: " ++ msg)

/-- Non-2xx handling in `OpenCodeProvider::create_session` (lines 616-621):
never retryable. -/
def opencodeCreateSessionStatusError (status : Nat) (body : String) : AIProviderError :=
  AIProviderError.new
    ("Failed to create session (" ++ toString status ++ "): " ++ body)

/-- C4 counterexample: an HTTP 429 during Claude stream construction, an
HTTP 500 from the OpenCode sync chat, and a transport failure while
connecting the OpenCode event stream all come back with retryable =
false. -/
theorem c4_counterexample_not_retryable :
    (claudeStreamHttpError 429
        (some { message := "rate limited", error_type := some "rate_limit_error" })).retryable
      = false ∧
    (opencodeChatHttpError 500 "boom").retryable = false ∧
    (opencodeSseConnectTransportError "connection refused").retryable = false :=
  ⟨rfl, rfl, rfl⟩

/-- C4 as amended: transport failures are marked retryable only at the
top-level request sends of Claude/Gemini `chat` and `chat_stream` and of
the OpenCode sync message post; the Claude and Gemini sync chat paths mark
an HTTP status error retryable exactly for 429 and ≥500, and only when the
body parsed as a vendor error object.  Every other error path returns
retryable = false: the Claude/Gemini stream-construction HTTP error paths,
sync errors with an unparseable body, and all OpenCode session-create,
event-stream-connect and async-prompt-post paths — transport and HTTP
status alike — as well as the OpenCode sync HTTP status path. -/
theorem c4_amended_retryable :
    (∀ status err, ((claudeChatHttpError status (some err)).retryable = true ↔
        (status = 429 ∨ 500 ≤ status))) ∧
    (∀ status err, ((geminiChatHttpError status (some err)).retryable = true ↔
        (status = 429 ∨ 500 ≤ status))) ∧
    (∀ status, (claudeChatHttpError status none).retryable = false) ∧
    (∀ status, (geminiChatHttpError status none).retryable = false) ∧
    (∀ msg, (claudeTransportError msg).retryable = true) ∧
    (∀ status err, (claudeStreamHttpError status err).retryable = false) ∧
    (∀ status err, (geminiStreamHttpError status err).retryable = false) ∧
    (∀ status body, (opencodeChatHttpError status body).retryable = false) ∧
    (∀ msg, (opencodeSseConnectTransportError msg).retryable = false) ∧
    (∀ status, (opencodeSseConnectStatusError status).retryable = false) ∧
    (∀ msg, (opencodePromptPostTransportError msg).retryable = false) ∧
    (∀ body, (opencodePromptPostStatusError body).retryable = false) ∧
    (∀ msg, (opencodeCreateSessionTransportError msg).retryable = false) ∧
    (∀ status body, (opencodeCreateSessionStatusError status body).retryable = false) := by
  refine ⟨?_, ?_, ?_, ?_, ?_, ?_, ?_, ?_, ?_, ?_, ?_, ?_, ?_, ?_⟩
  · intro status err
    unfold claudeChatHttpError
    dsimp only
    cases herr : err.error_type <;> simp only [herr] <;> split <;>
      simp_all [AIProviderError.new, AIProviderError.mark_retryable,
        AIProviderError.with_type]
  · intro status err
    unfold geminiChatHttpError
    dsimp only
    cases herr : err.status <;> simp only [herr] <;> split <;>
      simp_all [AIProviderError.new, AIProviderError.mark_retryable,
        AIProviderError.with_type]
  · intro status; rfl
  · intro status; rfl
  · intro msg; rfl
  · intro status err
    cases err <;> rfl
  · intro status err
    cases err <;> rfl
  · intro status body; rfl
  · intro msg; rfl
  · intro status; rfl
  · intro msg; rfl
  · intro body; rfl
  · intro msg; rfl
  · intro status body; rfl

/-! ## Data-marker line handling (claim C5) -/

/-- C5 counterexample: a `data:`-without-space line contributes no payload in
the Claude (and Gemini) decoder, while the OpenCode decoder accepts it. -/
theorem c5_counterexample_unspaced_marker_ignored :
    claudeFrameDataLines ("data:4".data) = [] ∧
    opencodeFrameData ("data:4".data) = ['4'] :=
  ⟨rfl, rfl⟩

lemma opencodeLineData_unspaced (c : Char) (s : List Char) (hc : c ≠ ' ') :
    opencodeLineData ('d' :: 'a' :: 't' :: 'a' :: ':' ::c::s) = some (c::s) := by
  unfold opencodeLineData
  split <;> simp_all

/-- C5 as amended: in the OpenCode decoder both the spaced marker
`"data: "` and the unspaced `"data:"` contribute their payload, and only
marker lines contribute; in the Claude and Gemini decoders only the spaced
marker contributes, and any other line — including an unspaced `"data:"`
line — is ignored. -/
theorem c5_amended_data_marker_lines :
    (∀ s, claudeLineData ('d' :: 'a' :: 't' :: 'a' :: ':' :: ' ' ::s) = some s) ∧
    (∀ l r, claudeLineData l = some r → l = 'd' :: 'a' :: 't' :: 'a' :: ':' :: ' ' ::r) ∧
    (∀ c s, c ≠ ' ' →
      claudeLineData ('d' :: 'a' :: 't' :: 'a' :: ':' ::c::s) = none) ∧
    (∀ s, opencodeLineData ('d' :: 'a' :: 't' :: 'a' :: ':' :: ' ' ::s) = some s) ∧
    (∀ c s, c ≠ ' ' →
      opencodeLineData ('d' :: 'a' :: 't' :: 'a' :: ':' ::c::s) = some (c::s)) ∧
    (∀ l r, opencodeLineData l = some r →
      l = 'd' :: 'a' :: 't' :: 'a' :: ':' :: ' ' ::r ∨ l = 'd' :: 'a' :: 't' :: 'a' :: ':' ::r) := by
  refine ⟨fun s => rfl, ?_, ?_, fun s => rfl, opencodeLineData_unspaced, ?_⟩
  · intro l r h
    unfold claudeLineData at h
    split at h
    · rename_i rest
      injection h with h1
      rw [h1]
    · exact Option.noConfusion h
  · intro c s hc
    unfold claudeLineData
    split <;> simp_all
  · intro l r h
    unfold opencodeLineData at h
    split at h
    · rename_i rest
      injection h with h1
      rw [h1]
      exact Or.inl rfl
    · rename_i rest
      injection h with h1
      rw [h1]
      exact Or.inr rfl
    · exact Option.noConfusion h

/-- Witness for C5 as amended: concrete unspaced-marker lines at a
non-space payload head. -/
theorem c5_amended_witness :
    claudeLineData ('d' :: 'a' :: 't' :: 'a' :: ':' :: '4' ::[]) = none ∧
    opencodeLineData ('d' :: 'a' :: 't' :: 'a' :: ':' :: '4' ::[]) = some ['4'] :=
  ⟨c5_amended_data_marker_lines.2.2.1 '4' [] (by decide),
   c5_amended_data_marker_lines.2.2.2.2.1 '4' [] (by decide)⟩

/-! ## Session filtering in the local orchestrator (claim C7) -/

/-- C7: an event whose extracted session id (from properties.sessionID,
properties.part.sessionID, or properties.info.sessionID) differs from the
active session id is dropped without emitting any chunk and without
terminating; an event from which no session id can be extracted passes the
filter and is interpreted normally. -/
theorem c7_session_filter :
    (∀ target raw sid,
      opencodeExtractSessionId (opencodeUnwrapPayload raw) = some sid →
      sid ≠ target → opencodeStep target () raw = ((), [], false)) ∧
    (∀ target raw,
      opencodeExtractSessionId (opencodeUnwrapPayload raw) = none →
      opencodeStep target () raw =
        ((), match decodeEventPayload (opencodeUnwrapPayload raw) with
             | none => ([], false)
             | some event => opencodeInterpretEvent target event)) := by
  constructor
  · intro target raw sid h hne
    unfold opencodeStep
    dsimp only
    rw [h]
    simp [bne_iff_ne, hne]
  · intro target raw h
    unfold opencodeStep
    dsimp only
    rw [h]
    cases hd : decodeEventPayload (opencodeUnwrapPayload raw) <;> simp [hd]

/-- Witness for C7: a concrete mismatched-session event is dropped, and a
concrete event with no discoverable session id passes the filter. -/
theorem c7_session_filter_witness :
    opencodeStep "mine" ()
        (Json.obj [("properties", Json.obj [("sessionID", Json.str "other")])]) =
      ((), [], false) ∧
    opencodeStep "mine" () (Json.obj [("type", Json.str "storage.write")]) =
      ((), match decodeEventPayload
             (opencodeUnwrapPayload (Json.obj [("type", Json.str "storage.write")])) with
           | none => ([], false)
           | some event => opencodeInterpretEvent "mine" event) :=
  ⟨c7_session_filter.1 "mine"
     (Json.obj [("properties", Json.obj [("sessionID", Json.str "other")])])
     "other" rfl (by decide),
   c7_session_filter.2 "mine" (Json.obj [("type", Json.str "storage.write")]) rfl⟩

/-! ## Chunk-size independence of the frame decoder (claim C3) -/

lemma findDD_bound : ∀ (buf : List Char) (p : Nat),
    findDD buf = some p → p + 2 ≤ buf.length := by
  intro buf
  induction buf with
  | nil => intro p h; exact Option.noConfusion h
  | cons c rest ih =>
      intro p h
      unfold findDD at h
      split at h
      · rename_i hdd
        injection h with h1
        subst h1
        cases rest with
        | nil => exact absurd hdd.2 (by simp)
        | cons r rrest => simp only [List.length_cons]; omega
      · cases hq : findDD rest with
        | none => rw [hq] at h; exact Option.noConfusion h
        | some q =>
            rw [hq] at h
            simp only [Option.map_some'] at h
            injection h with h1
            have := ih q hq
            simp [List.length_cons]
            omega

lemma findDD_append : ∀ (x y : List Char) (p : Nat),
    findDD x = some p → findDD (x ++ y) = some p := by
  intro x
  induction x with
  | nil => intro y p h; exact Option.noConfusion h
  | cons c rest ih =>
      intro y p h
      rw [List.cons_append]
      show (if c = '\n' ∧ (rest ++ y).head? = some '\n' then some 0
            else (findDD (rest ++ y)).map (· + 1)) = some p
      unfold findDD at h
      split at h
      · rename_i hdd
        rw [if_pos]
        · exact h
        · refine ⟨hdd.1, ?_⟩
          cases rest with
          | nil => exact absurd hdd.2 (by simp)
          | cons r rrest => simpa using hdd.2
      · rename_i hdd
        cases hq : findDD rest with
        | none => rw [hq] at h; exact Option.noConfusion h
        | some q =>
            rw [hq] at h
            have hrest_ne : rest ≠ [] := by
              intro he
              rw [he] at hq
              exact Option.noConfusion hq
            rw [if_neg]
            · rw [ih y q hq]
              exact h
            · intro hcontra
              apply hdd
              refine ⟨hcontra.1, ?_⟩
              cases rest with
              | nil => exact absurd rfl hrest_ne
              | cons r rrest => simpa using hcontra.2

lemma drainFramesGo_congr : ∀ (fuel1 : Nat) (fuel2 : Nat) (buf : List Char),
    buf.length ≤ fuel1 → buf.length ≤ fuel2 →
    drainFramesGo fuel1 buf = drainFramesGo fuel2 buf := by
  intro fuel1
  induction fuel1 with
  | zero =>
      intro fuel2 buf h1 _
      have hb : buf = [] := List.length_eq_zero.mp (Nat.le_zero.mp h1)
      subst hb
      cases fuel2 with
      | zero => rfl
      | succ f2 => rfl
  | succ f1 ih =>
      intro fuel2 buf h1 h2
      cases fuel2 with
      | zero =>
          have hb : buf = [] := List.length_eq_zero.mp (Nat.le_zero.mp h2)
          subst hb
          rfl
      | succ f2 =>
          show (match findDD buf with
                | none => ([], buf)
                | some pos =>
                    let frame := buf.take pos
                    let r := drainFramesGo f1 (buf.drop (pos + 2))
                    (frame :: r.1, r.2)) =
               (match findDD buf with
                | none => ([], buf)
                | some pos =>
                    let frame := buf.take pos
                    let r := drainFramesGo f2 (buf.drop (pos + 2))
                    (frame :: r.1, r.2))
          cases hf : findDD buf with
          | none => rfl
          | some pos =>
              have hb := findDD_bound buf pos hf
              have hlen : (buf.drop (pos + 2)).length ≤ f1 := by
                simp only [List.length_drop]
                omega
              have hlen2 : (buf.drop (pos + 2)).length ≤ f2 := by
                simp only [List.length_drop]
                omega
              simp only [ih f2 (buf.drop (pos + 2)) hlen hlen2]

lemma drainFrames_eq_of_findDD_none (buf : List Char) (h : findDD buf = none) :
    drainFrames buf = ([], buf) := by
  unfold drainFrames
  cases hl : buf.length with
  | zero => rfl
  | succ n => simp [drainFramesGo, h]

lemma drainFrames_eq_of_findDD_some (buf : List Char) (p : Nat)
    (h : findDD buf = some p) :
    drainFrames buf =
      (buf.take p :: (drainFrames (buf.drop (p + 2))).1,
       (drainFrames (buf.drop (p + 2))).2) := by
  have hb := findDD_bound buf p h
  unfold drainFrames
  cases hl : buf.length with
  | zero =>
      have hbuf : buf = [] := List.length_eq_zero.mp hl
      subst hbuf
      exact Option.noConfusion h
  | succ n =>
      show (match findDD buf with
            | none => ([], buf)
            | some pos =>
                let frame := buf.take pos
                let r := drainFramesGo n (buf.drop (pos + 2))
                (frame :: r.1, r.2)) = _
      rw [h]
      have hlen : (buf.drop (p + 2)).length ≤ n := by
        simp only [List.length_drop]
        omega
      simp only [drainFramesGo_congr n (buf.drop (p + 2)).length (buf.drop (p + 2))
        hlen le_rfl]

lemma drainFrames_append_aux : ∀ (n : Nat) (x y : List Char), x.length ≤ n →
    drainFrames (x ++ y) =
      ((drainFrames x).1 ++ (drainFrames ((drainFrames x).2 ++ y)).1,
       (drainFrames ((drainFrames x).2 ++ y)).2) := by
  intro n
  induction n with
  | zero =>
      intro x y h
      have hx : x = [] := List.length_eq_zero.mp (Nat.le_zero.mp h)
      subst hx
      rw [drainFrames_eq_of_findDD_none [] rfl]
      simp
  | succ n ih =>
      intro x y h
      cases hf : findDD x with
      | none =>
          rw [drainFrames_eq_of_findDD_none x hf]
          simp
      | some p =>
          have hb := findDD_bound x p hf
          have hfa := findDD_append x y p hf
          rw [drainFrames_eq_of_findDD_some (x ++ y) p hfa,
              drainFrames_eq_of_findDD_some x p hf]
          have ht : (x ++ y).take p = x.take p :=
            List.take_append_of_le_length (by omega)
          have hd : (x ++ y).drop (p + 2) = x.drop (p + 2) ++ y :=
            List.drop_append_of_le_length (by omega)
          rw [ht, hd]
          have hlen : (x.drop (p + 2)).length ≤ n := by
            simp only [List.length_drop]
            omega
          rw [ih (x.drop (p + 2)) y hlen]
          simp

lemma drainFrames_append (x y : List Char) :
    drainFrames (x ++ y) =
      ((drainFrames x).1 ++ (drainFrames ((drainFrames x).2 ++ y)).1,
       (drainFrames ((drainFrames x).2 ++ y)).2) :=
  drainFrames_append_aux x.length x y le_rfl

lemma processChunks_cons_eq : ∀ (rest : List (List Char)) (c buf : List Char),
    processChunks buf (c :: rest) = drainFrames (buf ++ c ++ rest.flatten) := by
  intro rest
  induction rest with
  | nil =>
      intro c buf
      simp only [processChunks, List.flatten_nil, List.append_nil]
  | cons c2 rest2 ih =>
      intro c buf
      show (let r := drainFrames (buf ++ c)
            let s := processChunks r.2 (c2 :: rest2)
            (r.1 ++ s.1, s.2)) = _
      dsimp only
      rw [ih c2 (drainFrames (buf ++ c)).2]
      rw [List.flatten_cons, drainFrames_append (buf ++ c) (c2 ++ rest2.flatten)]
      simp [List.append_assoc]

lemma processChunks_eq_flatten (chunks : List (List Char)) :
    processChunks [] chunks = drainFrames chunks.flatten := by
  cases chunks with
  | nil => rfl
  | cons c rest =>
      rw [processChunks_cons_eq rest c []]
      simp [List.flatten_cons, List.append_assoc]

lemma flatten_map_singleton {α : Type} (s : List α) :
    (s.map fun c => [c]).flatten = s := by
  induction s with
  | nil => rfl
  | cons c rest ih => simp [ih]

/-- C3 as amended: the frame-extraction algorithm on decoded text is
chunk-size independent — any two chunkings of the same character stream
(in particular the 1-character chunking and the single chunk) yield the
same frames and residual buffer — and the byte-level path is chunk-size
independent exactly when the per-chunk lossy UTF-8 decoding agrees with
whole-stream decoding (as it always does for ASCII byte streams, but not
when a chunk boundary splits a multi-byte character). -/
theorem c3_amended_chunk_independence :
    (∀ (chunksA chunksB : List (List Char)), chunksA.flatten = chunksB.flatten →
      processChunks [] chunksA = processChunks [] chunksB) ∧
    (∀ s : List Char, processChunks [] (s.map fun c => [c]) = processChunks [] [s]) ∧
    (∀ bs : List Nat,
      ((bs.map fun b => [b]).map utf8DecodeLossy).flatten = utf8DecodeLossy bs →
      processByteChunks (bs.map fun b => [b]) = processByteChunks [bs]) := by
  have key : ∀ (chunksA chunksB : List (List Char)), chunksA.flatten = chunksB.flatten →
      processChunks [] chunksA = processChunks [] chunksB := by
    intro a b h
    rw [processChunks_eq_flatten, processChunks_eq_flatten, h]
  refine ⟨key, ?_, ?_⟩
  · intro s
    exact key _ _ (by simp [flatten_map_singleton])
  · intro bs h
    unfold processByteChunks
    apply key
    rw [h]
    simp

/-- The UTF-8 bytes of "aé\n\n": an ASCII byte, a two-byte sequence, and a
frame delimiter. -/
def c3CounterexampleBytes : List Nat := [0x61, 0xC3, 0xA9, 0x0A, 0x0A]

/-- C3 counterexample: the streaming tasks lossily decode each network chunk
separately, so delivering these bytes one byte at a time turns the two-byte
UTF-8 character into two replacement characters, and the decoded frame
differs from single-chunk delivery. -/
theorem c3_counterexample_byte_chunking :
    processByteChunks (c3CounterexampleBytes.map fun b => [b]) ≠
      processByteChunks [c3CounterexampleBytes] ∧
    processByteChunks [c3CounterexampleBytes] =
      ([['a', 'é']], []) ∧
    processByteChunks (c3CounterexampleBytes.map fun b => [b]) =
      ([['a', replacementChar, replacementChar]], []) := by
  refine ⟨?_, rfl, rfl⟩
  decide

/-- Witness for C3 as amended: on a concrete all-ASCII byte stream the
1-byte chunking hypothesis holds and both deliveries decode to the same
single frame. -/
theorem c3_amended_witness :
    processByteChunks (([0x61, 0x0A, 0x0A] : List Nat).map fun b => [b]) =
      processByteChunks [[0x61, 0x0A, 0x0A]] :=
  c3_amended_chunk_independence.2.2 [0x61, 0x0A, 0x0A] (by decide)
